import Mathlib

/-!
Verification of the sandboxed repository browser (src/main.rs).

The program is a single-file Rust web server exposing a workspace of
projects.  We shallowly embed its core logic: the filesystem is a finite
association list from absolute paths (component lists) to nodes; the OS
primitives the code calls (`exists`, `read_link`, `canonicalize`,
`symlink_metadata`, `is_dir`, `read_to_string`, directory walks) are
executable functions over that model; every function of the Rust source
that the claims touch is translated definition-for-definition.

Paths are lists of components (`List String`); an absolute path `/a/b`
is `["a", "b"]`.  Machine integers (`u64` sizes) are `Nat` — no file
size operation in the program can overflow 64 bits in any scenario the
claims quantify over, and the only arithmetic is comparison.
-/

namespace Repo

/-- A filesystem node: a regular file (with the size reported by
`metadata.len()`, a modification timestamp, and its text content), a
directory (with a timestamp), or a symbolic link holding an absolute
target path.  The size is kept separate from the content, exactly as a
real filesystem reports `stat` metadata independently of a later
`read`. -/
inductive FSNode where
  | file (size : Nat) (mtime : Nat) (content : String)
  | dir (mtime : Nat)
  | symlink (target : List String)
deriving DecidableEq, Repr

/-- A filesystem: a finite map from absolute paths to nodes, as an
association list (first binding wins). -/
structure FS where
  nodes : List (List String × FSNode)
deriving DecidableEq, Repr

/-- Raw lookup of the node stored at exactly this path (no symlink
resolution) — the information the kernel holds in the dentry. -/
def FS.lookup (fs : FS) (p : List String) : Option FSNode :=
  (fs.nodes.find? (fun e => e.1 == p)).map (·.2)

/-- Sum of symlink target lengths, used to bound resolution fuel. -/
def FS.symTargetSum (fs : FS) : Nat :=
  fs.nodes.foldl
    (fun a e =>
      match e.2 with
      | .symlink t => a + t.length + 1
      | _ => a) 0

/-- One-pass path resolution, as the OS performs it for
`Path::canonicalize`: components are processed left to right, `.` is
skipped, `..` drops the last resolved component, a symlink component
restarts resolution at its (absolute) target followed by the remaining
components, and a missing component is an error.  The `Bool` in the
result records whether any symlink was traversed.  `fuel` bounds
symlink loops (a real kernel returns ELOOP). -/
def resolveGo (fs : FS) : Nat → Bool → List String → List String →
    Option (List String × Bool)
  | 0, _, _, _ => none
  | _ + 1, saw, acc, [] => some (acc, saw)
  | fuel + 1, saw, acc, c :: rest =>
    if c == "." then resolveGo fs fuel saw acc rest
    else if c == ".." then resolveGo fs fuel saw acc.dropLast rest
    else
      match fs.lookup (acc ++ [c]) with
      | some (.symlink t) => resolveGo fs fuel true [] (t ++ rest)
      | some _ => resolveGo fs fuel saw (acc ++ [c]) rest
      | none => none

/-- Fuel that suffices for any loop-free resolution of `p` in `fs`. -/
def canonFuel (fs : FS) (p : List String) : Nat :=
  (p.length + fs.symTargetSum + 1) * (fs.nodes.length + 2)

/-- `Path::canonicalize`, also reporting whether a symlink was
traversed anywhere in the chain. -/
def canonicalizeEx (fs : FS) (p : List String) :
    Option (List String × Bool) :=
  resolveGo fs (canonFuel fs p) false [] p

/-- `Path::canonicalize` (src/main.rs uses it in `is_path_allowed`,
both route handlers and `get_file_info`). -/
def canonicalize (fs : FS) (p : List String) : Option (List String) :=
  (canonicalizeEx fs p).map Prod.fst

/-- `Path::exists` — a `stat` that follows symlinks; succeeds exactly
when full resolution succeeds. -/
def existsB (fs : FS) (p : List String) : Bool :=
  (canonicalize fs p).isSome

/-- Metadata as reported by `fs::symlink_metadata` (an `lstat`). -/
structure Meta where
  isDir : Bool
  isSym : Bool
  len : Nat
  mtime : Nat
deriving DecidableEq, Repr

/-- Metadata of a node. The reported length of a directory is
irrelevant to the program (the size ceiling only applies to
non-directories); we report 0. -/
def nodeMeta : FSNode → Meta
  | .file sz mt _ => ⟨false, false, sz, mt⟩
  | .dir mt => ⟨true, false, 0, mt⟩
  | .symlink _ => ⟨false, true, 0, 0⟩

/-- `fs::symlink_metadata`: resolve every component except the final
one, then `lstat` the final component without following it.  A final
`.` or `..` component is resolved like a directory reference. -/
def symlinkMetadata (fs : FS) (p : List String) : Option Meta :=
  match p.getLast? with
  | none => (fs.lookup []).map nodeMeta
  | some c =>
    if c == "." || c == ".." then
      (canonicalize fs p).bind (fun cp => (fs.lookup cp).map nodeMeta)
    else
      (canonicalizeEx fs p.dropLast).bind
        (fun q => (fs.lookup (q.1 ++ [c])).map nodeMeta)

/-- `is_symlink` (src/main.rs:319): `path.read_link().is_ok()` — a
link-read probe that resolves the parent chain but never follows the
final component; it succeeds exactly when the final component is a
symlink. -/
def is_symlink (fs : FS) (p : List String) : Bool :=
  match symlinkMetadata fs p with
  | some m => m.isSym
  | none => false

/-- `Path::is_dir` — follows symlinks. -/
def isDirB (fs : FS) (p : List String) : Bool :=
  match (canonicalize fs p).bind fs.lookup with
  | some (.dir _) => true
  | _ => false

/-- `Path::is_file` — follows symlinks. -/
def isFileB (fs : FS) (p : List String) : Bool :=
  match (canonicalize fs p).bind fs.lookup with
  | some (.file _ _ _) => true
  | _ => false

/-- `fs::read_to_string` / `fs::read`: follows symlinks and reads a
regular file's content. -/
def readToString (fs : FS) (p : List String) : Option String :=
  match (canonicalize fs p).bind fs.lookup with
  | some (.file _ _ content) => some content
  | _ => none

/-- `Path::file_name`: the final normal component; trailing `.`
components are skipped and a trailing `..` yields `None`. -/
def fileName : List String → Option String
  | [] => none
  | [c] => if c == "." then none else if c == ".." then none else some c
  | c :: c' :: rest =>
    match fileName (c' :: rest) with
    | some n => some n
    | none => if c == "." || c == ".." then none else some c

/-- `Path::ends_with("ABOUT")`: the final components (with `.`
normalized away, as `Components` does) end in the single component
`ABOUT`. -/
def endsWithAbout (p : List String) : Bool :=
  (p.filter (fun c => c != ".")).getLast? == some "ABOUT"

/-! ## String primitives

Structurally recursive char-list implementations of the `str`
operations the program uses (`starts_with`, `ends_with`, `trim`,
split, …), so that every definition evaluates by kernel reduction on
concrete inputs. -/

/-- `str::starts_with`. -/
def strStarts (s pre : String) : Bool := pre.data.isPrefixOf s.data

/-- `str::ends_with`. -/
def strEnds (s suf : String) : Bool := suf.data.isSuffixOf s.data

/-- Drop the first `n` characters. -/
def strDrop (s : String) (n : Nat) : String := String.mk (s.data.drop n)

/-- Drop the last `n` characters. -/
def strDropRight (s : String) (n : Nat) : String :=
  String.mk (s.data.take (s.data.length - n))

/-- Whether the character occurs in the string. -/
def strHasChar (s : String) (c : Char) : Bool := s.data.contains c

/-- Split a character list at every occurrence of the separator. -/
def splitOnCharGo (sep : Char) : List Char → List (List Char)
  | [] => [[]]
  | c :: rest =>
    let r := splitOnCharGo sep rest
    if c == sep then [] :: r
    else
      match r with
      | [] => [[c]]
      | g :: gs => (c :: g) :: gs

/-- `str::split` on a single-character separator. -/
def strSplitChar (s : String) (sep : Char) : List String :=
  (splitOnCharGo sep s.data).map String.mk

/-- `str::trim`: shed whitespace from both ends. -/
def strTrim (s : String) : String :=
  String.mk
    (((s.data.dropWhile Char.isWhitespace).reverse.dropWhile
      Char.isWhitespace).reverse)

/-- `str::to_lowercase` (ASCII-simple mapping). -/
def strToLower (s : String) : String :=
  String.mk (s.data.map Char.toLower)

/-- Join strings with a separator. -/
def joinSep (sep : String) : List String → String
  | [] => ""
  | [s] => s
  | s :: rest => s ++ sep ++ joinSep sep rest

/-! ## The ignore crate: gitignore globs

`get_gitignore` feeds each line of the project's `.gitignore` to
`ignore::gitignore::GitignoreBuilder::add_line`.  We model the crate's
documented behavior on a glob subset: comments and blank lines add no
rule; `!` marks a whitelist line; a trailing `/` marks a directory-only
rule; a leading `/`, or a `/` anywhere in the pattern, anchors the rule
at the project root, otherwise the pattern matches at any depth.  Glob
compilation fails (as the crate's does, with a `glob` error) on an
unclosed `[` character class — `add_line` then returns `Err`. -/

/-- One atom of a compiled glob.  `star` never crosses a `/` (the
crate builds globs with `literal_separator(true)`). -/
inductive GlobAtom where
  | lit (c : Char)
  | star
  | qmark
  | cls (neg : Bool) (cs : List Char)
deriving DecidableEq, Repr

/-- Scan a character class up to the closing `]`; `none` when the
class is unclosed — the compilation failure case. -/
def takeClass : List Char → Option (List Char × List Char)
  | [] => none
  | c :: rest =>
    if c == ']' then some ([], rest)
    else (takeClass rest).map (fun r => (c :: r.1, r.2))

/-- Compile a glob pattern, with fuel bounding the scan; fails on an
unclosed character class. -/
def compileGlobGo : Nat → List Char → Option (List GlobAtom)
  | 0, _ => none
  | _ + 1, [] => some []
  | fuel + 1, c :: rest =>
    if c == '*' then (compileGlobGo fuel rest).map (.star :: ·)
    else if c == '?' then (compileGlobGo fuel rest).map (.qmark :: ·)
    else if c == '[' then
      match takeClass rest with
      | none => none
      | some (cs, rest') =>
        match cs with
        | '!' :: cs' => (compileGlobGo fuel rest').map (.cls true cs' :: ·)
        | _ => (compileGlobGo fuel rest').map (.cls false cs :: ·)
    else (compileGlobGo fuel rest).map (.lit c :: ·)

/-- Compile a glob pattern; fails on an unclosed character class. -/
def compileGlob (cs : List Char) : Option (List GlobAtom) :=
  compileGlobGo (cs.length + 1) cs

/-- Glob matching (fuelled by the summed lengths, which strictly
drop at every call); `star` matches a possibly empty run of
non-separator characters. -/
def globMatchGo : Nat → List GlobAtom → List Char → Bool
  | 0, _, _ => false
  | _ + 1, [], [] => true
  | _ + 1, [], _ :: _ => false
  | fuel + 1, .star :: ps, ds =>
    globMatchGo fuel ps ds ||
      (match ds with
       | [] => false
       | d :: ds' => d != '/' && globMatchGo fuel (.star :: ps) ds')
  | fuel + 1, .lit c :: ps, d :: ds => c == d && globMatchGo fuel ps ds
  | fuel + 1, .qmark :: ps, d :: ds => d != '/' && globMatchGo fuel ps ds
  | fuel + 1, .cls neg cs :: ps, d :: ds =>
    (cs.contains d != neg) && globMatchGo fuel ps ds
  | _ + 1, _ :: _, [] => false

/-- Glob matching with sufficient fuel. -/
def globMatch (ps : List GlobAtom) (ds : List Char) : Bool :=
  globMatchGo (ps.length + ds.length + 1) ps ds

/-- A compiled gitignore rule. -/
structure GlobRule where
  glob : List GlobAtom
  isWhite : Bool
  dirOnly : Bool
  anchored : Bool
deriving DecidableEq, Repr

/-- `GitignoreBuilder::add_line` (modelled from the ignore crate):
`some none` for a line adding no rule, `some (some r)` for a compiled
rule, `none` for a glob parse error. -/
def addLine (line : String) : Option (Option GlobRule) :=
  if line == "" then some none
  else if strStarts line "#" then some none
  else
    let p1 := if strStarts line "!" then strDrop line 1 else line
    let white := strStarts line "!"
    let dirOnly := strEnds p1 "/"
    let p2 := if strEnds p1 "/" then strDropRight p1 1 else p1
    let anchored :=
      if strStarts p2 "/" then true else strHasChar p2 '/'
    let p3 := if strStarts p2 "/" then strDrop p2 1 else p2
    (compileGlob p3.data).map (fun g => some ⟨g, white, dirOnly, anchored⟩)

/-- Join path components with `/`, as `Path::to_string_lossy` renders
a relative path. -/
def joinPath (p : List String) : String :=
  joinSep "/" p

/-- Whether one rule matches the path (`is_dir` as the caller reports
it): a directory-only rule matches only directories; an anchored rule
matches the whole path from the project root; an unanchored rule (its
pattern has no `/`) matches when some whole component suffix of the
path matches — the crate's `**/` prefixing. -/
def ruleMatches (r : GlobRule) (path : List String) (isDir : Bool) : Bool :=
  (!r.dirOnly || isDir) &&
    (if r.anchored then globMatch r.glob (joinPath path).data
     else path.tails.any (fun suf =>
       !suf.isEmpty && globMatch r.glob (joinPath suf).data))

/-- `Gitignore::matched(path, is_dir).is_ignore()`: the last matching
rule wins; the answer is `true` when it is not a whitelist rule. -/
def matchedIsIgnore (rules : List GlobRule) (path : List String)
    (isDir : Bool) : Bool :=
  match rules.reverse.find? (fun r => ruleMatches r path isDir) with
  | some r => !r.isWhite
  | none => false

/-- The `add_line` loop of `get_gitignore` (src/main.rs:310-313):
`builder.add_line(None, line).ok()?` — any line whose glob fails to
parse aborts the whole load with `None`. -/
def linesFold : List String → List GlobRule → Option (List GlobRule)
  | [], acc => some acc
  | l :: rest, acc =>
    match addLine l with
    | none => none
    | some none => linesFold rest acc
    | some (some r) => linesFold rest (acc ++ [r])

/-- `str::lines`: split on `\n`, shedding one trailing `\r` per line;
a final newline produces no trailing empty line. -/
def strLines (content : String) : List String :=
  let parts :=
    (strSplitChar content '\n').map
      (fun l => if strEnds l "\r" then strDropRight l 1 else l)
  if parts.getLast? == some "" then parts.dropLast else parts

/-- `get_gitignore` (src/main.rs:301-317). -/
def get_gitignore (fs : FS) (project_path : List String) :
    Option (List GlobRule) :=
  let gitignore_path := project_path ++ [".gitignore"]
  if !existsB fs gitignore_path then none
  else
    match readToString fs gitignore_path with
    | some content => linesFold (strLines content) []
    | none => none

/-! ## The sandbox validator -/

/-- The final, gitignore-enforcement step of `is_path_allowed`
(src/main.rs:378-389): when `check_gitignore` is set and the project's
ignore set loaded, reject a path whose project-relative form matches an
ignore rule — the match is evaluated with `is_dir = false`. -/
def ignoreStep (fs : FS) (check_gitignore : Bool)
    (project_root canonical_path rel_path : List String) : Bool :=
  if check_gitignore then
    match get_gitignore fs project_root with
    | some gitignore =>
      let rel_to_project :=
        if project_root.isPrefixOf canonical_path then
          canonical_path.drop project_root.length
        else rel_path
      if matchedIsIgnore gitignore rel_to_project false then false
      else true
    | none => true
  else true

/-- `is_path_allowed` (src/main.rs:323-390), the Sandbox Validator:
existence, a link-read probe on the final component, canonicalization
of both the path and the workspace root, prefix containment, the
workspace-root and project-root early accepts, the dot-component and
`ABOUT`-component rejection, and the gitignore step.
`strip_prefix` after a successful `starts_with` is `List.drop`. -/
def is_path_allowed (fs : FS) (path : List String)
    (check_gitignore : Bool) (workspace_root : List String) : Bool :=
  if !existsB fs path then false
  else if is_symlink fs path then false
  else
    match canonicalize fs path with
    | none => false
    | some canonical_path =>
      match canonicalize fs workspace_root with
      | none => false
      | some canonical_workspace =>
        if !(canonical_workspace.isPrefixOf canonical_path) then false
        else if canonical_path == canonical_workspace then true
        else
          let rel_path := canonical_path.drop canonical_workspace.length
          let project_root := canonical_workspace ++ rel_path.take 1
          if !(isDirB fs project_root) then false
          else if rel_path.any (fun c =>
              (strStarts c "." && c != ".gitignore") ||
              (c == "ABOUT" && !(endsWithAbout path))) then false
          else if canonical_path == project_root then true
          else ignoreStep fs check_gitignore project_root
            canonical_path rel_path

/-! ## Directory listing -/

/-- `MAX_FILE_SIZE` (src/main.rs:30): the 10 MiB ceiling. -/
def MAX_FILE_SIZE : Nat := 10 * 1024 * 1024

/-- The `FileInfo` record (src/main.rs:177-184). -/
structure FileInfo where
  name : String
  path : String
  is_dir : Bool
  size : String
  last_modified : String
deriving DecidableEq, Repr

/-- Models `humansize::format_size(len, BINARY)` as an injective
rendering of the byte count; the program only displays the string. -/
def format_size (n : Nat) : String := toString n ++ " B"

/-- Models the chrono `"%b %d, %Y %H:%M"` rendering as an injective
rendering of the timestamp; the program only displays the string. -/
def formatTimestamp (t : Nat) : String := toString t

/-- `get_file_info` (src/main.rs:392-440): `symlink_metadata`, symlink
rejection, the strict `len > MAX_FILE_SIZE` exclusion for
non-directories, `file_name`, canonicalization of path and root, and
the workspace-relative display path.  `metadata.modified()` is the
`mtime` already carried by the metadata. -/
def get_file_info (fs : FS) (path workspace_root : List String) :
    Option FileInfo :=
  match symlinkMetadata fs path with
  | none => none
  | some metadata =>
    if metadata.isSym then none
    else if metadata.isDir = false ∧ MAX_FILE_SIZE < metadata.len then none
    else
      match fileName path with
      | none => none
      | some name =>
        match canonicalize fs path with
        | none => none
        | some canonical_path =>
          match canonicalize fs workspace_root with
          | none => none
          | some canonical_workspace =>
            if canonical_workspace.isPrefixOf canonical_path then
              some ⟨name,
                joinPath (canonical_path.drop canonical_workspace.length),
                metadata.isDir, format_size metadata.len,
                formatTimestamp metadata.mtime⟩
            else none

/-- `is_binary_file` (src/main.rs:442-447): a NUL among the first 1024
bytes (bytes modelled as the content's characters); an unreadable file
counts as binary. -/
def is_binary_file (fs : FS) (p : List String) : Bool :=
  match readToString fs p with
  | some content => (content.data.take 1024).any (fun c => c.toNat == 0)
  | none => true

/-- Total-order comparison of naturals, as `Ord Nat` in Rust. -/
def ncmp (a b : Nat) : Ordering :=
  if a < b then .lt else if b < a then .gt else .eq

/-- Lexicographic comparison of code-point sequences — Rust's `Ord`
for `String` (byte-wise UTF-8 order equals code-point order). -/
def lexCmp : List Nat → List Nat → Ordering
  | [], [] => .eq
  | [], _ :: _ => .lt
  | _ :: _, [] => .gt
  | a :: as_, b :: bs =>
    match ncmp a b with
    | .eq => lexCmp as_ bs
    | o => o

/-- Case-insensitive string comparison:
`a.name.to_lowercase().cmp(&b.name.to_lowercase())`. -/
def strCmpCI (a b : String) : Ordering :=
  lexCmp ((strToLower a).data.map Char.toNat) ((strToLower b).data.map Char.toNat)

/-- The listing comparator (src/main.rs:765-769): directories before
files; within a group, case-insensitive lexical order by name. -/
def fiCmp (a b : FileInfo) : Ordering :=
  match a.is_dir, b.is_dir with
  | true, true => strCmpCI a.name b.name
  | false, false => strCmpCI a.name b.name
  | true, false => .lt
  | false, true => .gt

/-- Stable insertion of one element: it lands after every element the
comparator does not rank strictly greater. -/
def orderedInsertBy (cmp : α → α → Ordering) (x : α) :
    List α → List α
  | [] => [x]
  | y :: ys =>
    if cmp y x = Ordering.gt then x :: y :: ys
    else y :: orderedInsertBy cmp x ys

/-- Rust's stable `slice::sort_by`: for a total transitive comparator
the stable sorted permutation is unique, so stable insertion from the
left computes exactly what the Rust merge sort returns. -/
def stableSortBy (cmp : α → α → Ordering) (l : List α) : List α :=
  l.foldl (fun acc x => orderedInsertBy cmp x acc) []

/-- Immediate children names of a directory, in filesystem order —
`WalkDir::new(path).min_depth(1).max_depth(1)`. -/
def childNames (fs : FS) (p : List String) : List String :=
  fs.nodes.filterMap (fun e =>
    if e.1.length == p.length + 1 && p.isPrefixOf e.1 then e.1.getLast?
    else none)

/-- `get_directory_contents` (src/main.rs:740-772): at the workspace
root only subdirectories are listed (`entry.path().is_dir()` follows
symlinks); elsewhere each child is gated by the Sandbox Validator;
children whose metadata resolution fails are dropped; then the stable
sort under `fiCmp`. -/
def get_directory_contents (fs : FS) (path : List String)
    (check_gitignore : Bool) (workspace_root : List String) :
    List FileInfo :=
  let contents :=
    if path == workspace_root then
      ((childNames fs path).filter
        (fun c => isDirB fs (path ++ [c]))).filterMap
          (fun c => get_file_info fs (path ++ [c]) workspace_root)
    else
      ((childNames fs path).filter
        (fun c =>
          is_path_allowed fs (path ++ [c]) check_gitignore
            workspace_root)).filterMap
          (fun c => get_file_info fs (path ++ [c]) workspace_root)
  stableSortBy fiCmp contents

/-! ## Project descriptor parser -/

/-- `str::trim_start_matches('#')`: shed every leading `#`. -/
def trimHashes (l : String) : String :=
  String.mk (List.dropWhile (fun c => c == '#') l.data)

/-- `parse_about_file` (src/main.rs:631-647): tag lines are the lines
that start with `#` (no leading-whitespace skipping), their value the
line with all leading `#` shed and then trimmed; the summary is the
first line that does not start with `#` and is not blank, trimmed. -/
def parse_about_file (fs : FS) (path : List String) :
    Option (List String × Option String) :=
  match readToString fs path with
  | none => none
  | some content =>
    let lines := strLines content
    let tags :=
      (lines.filter (fun l => strStarts l "#")).map
        (fun l => strTrim (trimHashes l))
    let about_sentence :=
      (lines.find? (fun l => !strStarts l "#" && !(strTrim l == ""))).map
        (fun l => strTrim l)
    some (tags, about_sentence)

/-! ## HTML fragments and the two ammonia sanitizers

HTML fragments are modelled as token streams rather than flat strings:
text is a `text` token (serialized HTML-escaped, as both
`pulldown_cmark::html::push_html` and ammonia's serializer escape
text), tags carry their attribute lists, and the
`__CODE_BLOCK_PLACEHOLDER_i_END` marker emitted by `render_markdown`
is the distinguished `placeholder i` token — it is plain text under
both sanitizers, which is exactly how the Rust string pipeline treats
it.  Ammonia's clean re-parses and re-serializes a fragment; on this
token model that round trip is the identity, so each `clean` is a
single token-stream pass. -/

/-- One token of serialized HTML. -/
inductive HtmlTok where
  | text (s : String)
  | tagOpen (name : String) (attrs : List (String × String))
  | tagClose (name : String)
  | placeholder (i : Nat)
deriving DecidableEq, Repr

/-- A sanitizer configuration: allowed tags, per-tag allowed
attributes, and the tags whose whole content is removed
(`clean_content_tags`; ammonia's default is `script` and `style`). -/
structure CleanCfg where
  tags : List String
  attrs : String → List String
  cleanContent : List String

/-- Skip tokens up to and including the close of the given tag —
ammonia removing the content of a `clean_content_tags` element. -/
def dropThroughClose (n : String) : List HtmlTok → List HtmlTok
  | [] => []
  | .tagClose m :: rest =>
    if m == n then rest else dropThroughClose n rest
  | _ :: rest => dropThroughClose n rest

/-- One ammonia clean pass (fuelled by the stream length): text and
placeholder tokens pass through; a disallowed tag is removed but its
content kept; a `clean_content_tags` tag is removed with its content;
an allowed tag keeps only its allowed attributes. -/
def cleanGo (cfg : CleanCfg) : Nat → List HtmlTok → List HtmlTok
  | 0, _ => []
  | _ + 1, [] => []
  | fuel + 1, tok :: rest =>
    match tok with
    | .text s => .text s :: cleanGo cfg fuel rest
    | .placeholder i => .placeholder i :: cleanGo cfg fuel rest
    | .tagClose n =>
      if cfg.tags.contains n then .tagClose n :: cleanGo cfg fuel rest
      else cleanGo cfg fuel rest
    | .tagOpen n attrs =>
      if cfg.cleanContent.contains n then
        cleanGo cfg fuel (dropThroughClose n rest)
      else if cfg.tags.contains n then
        .tagOpen n (attrs.filter (fun a => (cfg.attrs n).contains a.1)) ::
          cleanGo cfg fuel rest
      else cleanGo cfg fuel rest

/-- Run a clean pass with sufficient fuel. -/
def cleanToks (cfg : CleanCfg) (toks : List HtmlTok) : List HtmlTok :=
  cleanGo cfg (toks.length + 1) toks

/-- `AMMONIA_CODE_BUILDER` (src/main.rs:37-60): tags `div`, `span`,
`pre`, `code`; `div` keeps `class`, `span` keeps `class` and `style`;
`clean_content_tags` is emptied. -/
def codeCfg : CleanCfg where
  tags := ["div", "span", "pre", "code"]
  attrs := fun n =>
    if n == "div" then ["class"]
    else if n == "span" then ["class", "style"]
    else []
  cleanContent := []

/-- `AMMONIA_BUILDER` (src/main.rs:61-170): the document-wide
allow-list; `clean_content_tags` keeps ammonia's default `script` and
`style`. -/
def docCfg : CleanCfg where
  tags :=
    ["p", "br", "h1", "h2", "h3", "h4", "h5", "h6", "strong", "em",
     "code", "pre", "blockquote", "ul", "ol", "li", "span", "div",
     "img", "a", "hr", "table", "thead", "tbody", "tr", "th", "td",
     "del", "input", "details", "summary"]
  attrs := fun n =>
    if n == "a" then ["href", "title", "target"]
    else if n == "img" then ["src", "alt", "title", "width", "height"]
    else if n == "input" then ["type", "checked", "disabled"]
    else if ["p", "h1", "h2", "h3", "h4", "h5", "h6", "th",
        "td"].contains n then ["align"]
    else []
  cleanContent := ["script", "style"]

/-- `AMMONIA_CODE_BUILDER.clean`. -/
def cleanCode (toks : List HtmlTok) : List HtmlTok :=
  cleanToks codeCfg toks

/-- `AMMONIA_BUILDER.clean`. -/
def cleanDoc (toks : List HtmlTok) : List HtmlTok :=
  cleanToks docCfg toks

/-! ## The code highlighter -/

/-- Right-align a string in a field of the given width, as
`format!("{:>width$}", i)`. -/
def padLeft (width : Nat) (s : String) : String :=
  String.mk (List.replicate (width - s.data.length) ' ') ++ s

/-- Number of decimal digits of the line count — the gutter width. -/
def digitWidth (n : Nat) : Nat := (toString n).data.length

/-- Models `syntect::html::highlighted_html_for_string`: a `pre`
carrying the theme background as an inline style, containing styled
spans whose text is the HTML-escaped file content (escaping is the
serializer's duty on `text` tokens). -/
def syntectHighlight (themeStyle : String) (content : String) :
    List HtmlTok :=
  [.tagOpen "pre" [("style", themeStyle)],
   .tagOpen "span" [("style", "color:#000000;")],
   .text content,
   .tagClose "span",
   .tagClose "pre"]

/-- The line-number gutter of `highlight_code` (src/main.rs:465-489):
`line_count` spans of right-aligned numbers inside a
`div.line-numbers`, the highlighted HTML inside a `div.code-content`. -/
def processHtml (content : String) (with_line_numbers : Bool)
    (html : List HtmlTok) : List HtmlTok :=
  if !with_line_numbers then html
  else
    let line_count := (strLines content).length
    let gutter_width := digitWidth line_count
    let line_numbers :=
      ((List.range line_count).map (fun i =>
        [HtmlTok.tagOpen "span" [("class", "line-number")],
         HtmlTok.text (padLeft gutter_width (toString (i + 1))),
         HtmlTok.tagClose "span"])).foldr (fun a b => a ++ b) []
    [HtmlTok.tagOpen "div" [("class", "line-numbers")]] ++ line_numbers ++
      [HtmlTok.tagClose "div",
       HtmlTok.tagOpen "div" [("class", "code-content")]] ++ html ++
      [HtmlTok.tagClose "div"]

/-- `highlight_code` (src/main.rs:449-512): two themed renderings of
the same content (the dark and light syntect themes), each optionally
wrapped with the line-number gutter and, when line numbers are on, a
`div.code-with-lines`, side by side in `div.dark-code` and
`div.light-code`.  The syntax chosen from the extension only affects
span structure, which the model folds into `syntectHighlight`. -/
def highlight_code (_extension : String) (content : String)
    (with_line_numbers : Bool) : List HtmlTok :=
  let dark_html :=
    processHtml content with_line_numbers
      (syntectHighlight "background-color:#2d2d2d;" content)
  let light_html :=
    processHtml content with_line_numbers
      (syntectHighlight "background-color:#ffffff;" content)
  let wrap := fun (html : List HtmlTok) =>
    if with_line_numbers then
      [HtmlTok.tagOpen "div" [("class", "code-with-lines")]] ++ html ++
        [HtmlTok.tagClose "div"]
    else html
  [HtmlTok.tagOpen "div" [("class", "dark-code")]] ++ wrap dark_html ++
    [HtmlTok.tagClose "div",
     HtmlTok.tagOpen "div" [("class", "light-code")]] ++ wrap light_html ++
    [HtmlTok.tagClose "div"]

/-! ## The markdown renderer -/

/-- The fence-language-to-extension lookup of `render_markdown`
(src/main.rs:539-592). -/
def langToExt (lang : String) : String :=
  if ["rust", "rs"].contains lang then "rs"
  else if lang == "c" then "c"
  else if ["cpp", "c++", "cxx", "cc"].contains lang then "cpp"
  else if ["h", "hpp", "hxx", "hh"].contains lang then "h"
  else if ["asm", "s"].contains lang then "asm"
  else if ["javascript", "js", "jsx"].contains lang then "js"
  else if ["typescript", "ts", "tsx"].contains lang then "ts"
  else if ["html", "htm", "xhtml"].contains lang then "html"
  else if ["css", "scss", "sass", "less"].contains lang then "css"
  else if lang == "php" then "php"
  else if lang == "vue" then "vue"
  else if lang == "svelte" then "svelte"
  else if ["python", "py", "pyw", "pyx"].contains lang then "py"
  else if ["ruby", "rb", "rbw"].contains lang then "rb"
  else if ["perl", "pl", "pm"].contains lang then "pl"
  else if lang == "lua" then "lua"
  else if lang == "tcl" then "tcl"
  else if lang == "java" then "java"
  else if ["kotlin", "kt"].contains lang then "kt"
  else if lang == "groovy" then "groovy"
  else if lang == "scala" then "scala"
  else if ["clojure", "clj"].contains lang then "clj"
  else if ["cs", "csharp"].contains lang then "cs"
  else if ["fs", "fsharp"].contains lang then "fs"
  else if lang == "vb" then "vb"
  else if ["shell", "sh", "bash", "zsh", "fish"].contains lang then "sh"
  else if ["powershell", "ps1"].contains lang then "ps1"
  else if ["batch", "bat", "cmd"].contains lang then "bat"
  else if ["go", "golang"].contains lang then "go"
  else if lang == "swift" then "swift"
  else if lang == "r" then "r"
  else if ["matlab", "m"].contains lang then "matlab"
  else if ["haskell", "hs"].contains lang then "hs"
  else if ["elixir", "ex", "exs"].contains lang then "ex"
  else if ["erlang", "erl"].contains lang then "erl"
  else if ["ocaml", "ml"].contains lang then "ml"
  else if ["lisp", "el"].contains lang then "lisp"
  else if ["scheme", "scm"].contains lang then "scm"
  else if lang == "dart" then "dart"
  else if lang == "d" then "d"
  else if lang == "json" then "json"
  else if ["yaml", "yml"].contains lang then "yaml"
  else if lang == "toml" then "toml"
  else if lang == "xml" then "xml"
  else if lang == "sql" then "sql"
  else if ["graphql", "gql"].contains lang then "graphql"
  else if ["protobuf", "proto"].contains lang then "proto"
  else if ["markdown", "md"].contains lang then "md"
  else if ["tex", "latex"].contains lang then "tex"
  else if lang == "rst" then "rst"
  else if ["asciidoc", "adoc"].contains lang then "adoc"
  else "txt"

/-- A pulldown-cmark event, as `render_markdown` consumes it: the
start and end of a fenced code block, a text event, or any other
event (given as the tokens `html::push_html` serializes it to). -/
inductive MdEvent where
  | startCode (lang : String)
  | endCode
  | text (s : String)
  | htmlEvt (toks : List HtmlTok)
deriving DecidableEq, Repr

/-- The loop state of `render_markdown` (src/main.rs:523-527). -/
structure MdState where
  html_output : List HtmlTok
  in_code_block : Bool
  current_code : String
  current_lang : String
  code_blocks : List (List HtmlTok)
deriving Repr

/-- The initial loop state. -/
def mdInit : MdState := ⟨[], false, "", "", []⟩

/-- One iteration of the event loop (src/main.rs:530-616): entering a
fence starts buffering; leaving it highlights the buffer, sanitizes it
once with the code sanitizer, stores it in the side list and emits the
placeholder for its index; text inside the fence is buffered; every
other event is serialized into the output.  An `endCode` without an
open fence falls through to `push_html`, which serializes the code
block end tags. -/
def renderStep (st : MdState) (ev : MdEvent) : MdState :=
  match ev with
  | .startCode lang =>
    { st with in_code_block := true, current_lang := lang,
              current_code := "" }
  | .endCode =>
    if st.in_code_block then
      let extension := langToExt st.current_lang
      let highlighted := highlight_code extension st.current_code false
      let clean_highlighted := cleanCode highlighted
      { st with
        html_output :=
          st.html_output ++ [.placeholder st.code_blocks.length],
        code_blocks := st.code_blocks ++ [clean_highlighted],
        in_code_block := false, current_code := "", current_lang := "" }
    else
      { st with html_output :=
          st.html_output ++ [.tagClose "code", .tagClose "pre"] }
  | .text s =>
    if st.in_code_block then
      { st with current_code := st.current_code ++ s }
    else { st with html_output := st.html_output ++ [.text s] }
  | .htmlEvt toks => { st with html_output := st.html_output ++ toks }

/-- The serialized document (with placeholders) and the side list of
pre-sanitized code blocks after the event loop. -/
def renderParts (events : List MdEvent) : List HtmlTok × List (List HtmlTok) :=
  let st := events.foldl renderStep mdInit
  (st.html_output, st.code_blocks)

/-- Concatenation of the images of the elements. -/
def concatMap (f : α → List β) : List α → List β
  | [] => []
  | x :: xs => f x ++ concatMap f xs

/-- Substitution of a single token: a placeholder becomes its stored
block (itself when the index is out of range — unreachable), anything
else stays. -/
def substTok (blocks : List (List HtmlTok)) : HtmlTok → List HtmlTok
  | .placeholder i =>
    match blocks[i]? with
    | some b => b
    | none => [.placeholder i]
  | t => [t]

/-- The substitution loop (src/main.rs:620-624): replace the `i`-th
placeholder with the `i`-th pre-sanitized block. -/
def substPlaceholders (blocks : List (List HtmlTok))
    (toks : List HtmlTok) : List HtmlTok :=
  concatMap (substTok blocks) toks

/-- The final relative-link rewrite (src/main.rs:626-628):
`src="./` and `href="./` become `src="/{base_path}/` — on tokens, the
`src`/`href` attribute values that start with `./`. -/
def attrRewrite (base_path : String) (toks : List HtmlTok) :
    List HtmlTok :=
  toks.map (fun t =>
    match t with
    | .tagOpen n attrs =>
      .tagOpen n (attrs.map (fun a =>
        if (a.1 == "src" || a.1 == "href") && strStarts a.2 "./" then
          (a.1, "/" ++ base_path ++ "/" ++ strDrop a.2 2)
        else a))
    | _ => t)

/-- `render_markdown` (src/main.rs:514-629): run the event loop, clean
the whole serialized document with the document-wide sanitizer,
substitute the pre-sanitized code blocks for their placeholders, then
rewrite relative links. -/
def render_markdown (events : List MdEvent) (base_path : String) :
    List HtmlTok :=
  let parts := renderParts events
  attrRewrite base_path
    (substPlaceholders parts.2 (cleanDoc parts.1))

/-- HTML-escape text, as `push_html` and ammonia's serializer do. -/
def escapeHtml (s : String) : String :=
  String.mk (concatMap (fun c =>
    if c == '&' then "&amp;".data
    else if c == '<' then "&lt;".data
    else if c == '>' then "&gt;".data
    else if c.toNat == 34 then "&quot;".data
    else [c]) s.data)

/-- The literal placeholder marker
(`__CODE_BLOCK_PLACEHOLDER_{i}_END`, src/main.rs:528,598). -/
def placeholderText (i : Nat) : String :=
  "__CODE_BLOCK_PLACEHOLDER_" ++ toString i ++ "_END"

/-- Serialize one token to HTML text. -/
def serializeTok : HtmlTok → String
  | .text s => escapeHtml s
  | .placeholder i => placeholderText i
  | .tagOpen n attrs =>
    "<" ++ n ++
      (concatMap (fun a =>
        (" " ++ a.1 ++ "=\x22" ++ a.2 ++ "\x22").data) attrs |> String.mk) ++
      ">"
  | .tagClose n => "</" ++ n ++ ">"

/-- Serialize a token stream to the final HTML string. -/
def serializeToks (toks : List HtmlTok) : String :=
  String.mk (concatMap (fun t => (serializeTok t).data) toks)

/-- Whether `pat` occurs as a substring. -/
def listContainsSub [DecidableEq α] (pat : List α) : List α → Bool
  | [] => pat.isEmpty
  | c :: rest => pat.isPrefixOf (c :: rest) || listContainsSub pat rest

/-- Whether `pat` occurs as a substring of `s`. -/
def strContainsSub (s pat : String) : Bool :=
  listContainsSub pat.data s.data

/-! ## The archive builder -/

/-- Depth fuel covering every path stored in the filesystem. -/
def wdFuel (fs : FS) : Nat :=
  fs.nodes.foldl (fun a e => max a e.1.length) 0 + 1

/-- Recursive walk, fuelled by depth: the root entry first, then each
child subtree in filesystem order; only real directories are entered
(`WalkDir` does not follow symlinks). -/
def walkGo (fs : FS) : Nat → List String → List (List String)
  | 0, _ => []
  | fuel + 1, p =>
    p ::
      (match fs.lookup p with
       | some (.dir _) =>
         concatMap (fun c => walkGo fs fuel (p ++ [c])) (childNames fs p)
       | _ => [])

/-- `WalkDir::new(directory_path)`: the subtree in depth-first order,
root included. -/
def walkDir (fs : FS) (p : List String) : List (List String) :=
  walkGo fs (wdFuel fs) p

/-- `Path::strip_prefix` as used on walk entries. -/
def stripPre (pre p : List String) : Option (List String) :=
  if pre.isPrefixOf p then some (p.drop pre.length) else none

/-- One iteration of the `create_zip_file` walk loop
(src/main.rs:694-716): skip entries named `ABOUT`; skip entries the
Sandbox Validator (ignore enforcement on) rejects; `strip_prefix`
failure aborts with `None`; skip the root entry (empty relative name);
only files are written, `fs::read` failure aborting with `None`.  An
archive entry is its project-relative component list (joined with `/`
when handed to `zip.start_file`) plus the bytes written. -/
def zipStep (fs : FS) (workspace_root directory_path : List String)
    (acc : Option (List (List String × String))) (path : List String) :
    Option (List (List String × String)) :=
  match acc with
  | none => none
  | some es =>
    if fileName path == some "ABOUT" then some es
    else if !is_path_allowed fs path true workspace_root then some es
    else
      match stripPre directory_path path with
      | none => none
      | some name =>
        if name.isEmpty then some es
        else if isFileB fs path then
          match readToString fs path with
          | none => none
          | some content => some (es ++ [(name, content)])
        else some es

/-- `create_zip_file` (src/main.rs:685-719). -/
def create_zip_file (fs : FS) (directory_path workspace_root : List String) :
    Option (List (List String × String)) :=
  (walkDir fs directory_path).foldl
    (zipStep fs workspace_root directory_path) (some [])

/-! ## The route handlers -/

/-- `is_project_root` (src/main.rs:721-738): exactly one component
under the canonical workspace, and a directory. -/
def is_project_root (fs : FS) (path workspace_root : List String) : Bool :=
  match canonicalize fs path with
  | none => false
  | some canonical_path =>
    match canonicalize fs workspace_root with
    | none => false
    | some canonical_workspace =>
      if canonical_workspace.isPrefixOf canonical_path then
        (canonical_path.drop canonical_workspace.length).length == 1 &&
          isDirB fs canonical_path
      else false

/-- `Path::extension` of a file name, `unwrap_or("")`. -/
def extOf (name : String) : String :=
  match strSplitChar name '.' with
  | [] => ""
  | [_] => ""
  | first :: rest =>
    if first == "" && rest.length == 1 then ""
    else (rest.getLast? |>.getD "")

/-- `content.lines().count()`. -/
def countLines (content : String) : Nat := (strLines content).length

/-- The observable outcome of the browse handler `view_path`: the
error statuses it returns, the top-level index, a rendered file view
(the sanitized highlighted code and the line count), or a rendered
directory view (its listing, and whether the project template was
used).  Template filling itself is the external collaborator. -/
inductive ViewOutcome where
  | notFound
  | forbidden
  | badRequest
  | okIndex (contents : List FileInfo)
  | okFile (highlighted : List HtmlTok) (lines_count : Nat)
  | okDir (contents : List FileInfo) (isProject : Bool)
deriving DecidableEq, Repr

/-- `view_path` (src/main.rs:929-1133): the empty path renders the
index; otherwise the request is joined under the workspace root,
canonicalized (failure: not found), gated by the Sandbox Validator
(failure: not found), probed for a final symlink (forbidden); a file
is then size-checked (forbidden over the ceiling), binary-checked
(bad request), read and highlighted with line numbers, the result
sanitized once by the code sanitizer; a directory is listed, with the
project view when it is a project root. -/
def view_path (fs : FS) (workspace_root req : List String) : ViewOutcome :=
  if req.isEmpty then
    .okIndex (get_directory_contents fs workspace_root false workspace_root)
  else
    let file_path := workspace_root ++ req
    match canonicalize fs file_path with
    | none => .notFound
    | some canonical_path =>
      if !is_path_allowed fs canonical_path true workspace_root then
        .notFound
      else if is_symlink fs canonical_path then .forbidden
      else if !(isDirB fs canonical_path) then
        match symlinkMetadata fs canonical_path with
        | none => .notFound
        | some metadata =>
          if MAX_FILE_SIZE < metadata.len then .forbidden
          else if is_binary_file fs canonical_path then .badRequest
          else
            match readToString fs canonical_path with
            | none => .notFound
            | some content =>
              match get_file_info fs canonical_path workspace_root with
              | none => .notFound
              | some _ =>
                .okFile
                  (cleanCode (highlight_code
                    (extOf ((fileName canonical_path).getD ""))
                    content true))
                  (countLines content)
      else
        let contents :=
          get_directory_contents fs canonical_path true workspace_root
        if !is_project_root fs canonical_path workspace_root then
          .okDir contents false
        else .okDir contents true

/-- The observable outcome of the download handler. -/
inductive DownloadOutcome where
  | notFound
  | forbidden
  | internal
  | okZip (entries : List (List String × String))
  | okBytes (content : String)
deriving DecidableEq, Repr

/-- `download_file` (src/main.rs:838-927): join under the root,
canonicalize (not found on failure), gate by the Sandbox Validator
(not found), probe the final symlink (forbidden), size-check
(forbidden), then zip a directory or send file bytes. -/
def download_file (fs : FS) (workspace_root req : List String) :
    DownloadOutcome :=
  let file_path := workspace_root ++ req
  match canonicalize fs file_path with
  | none => .notFound
  | some canonical_path =>
    if !is_path_allowed fs canonical_path true workspace_root then
      .notFound
    else if is_symlink fs canonical_path then .forbidden
    else
      match symlinkMetadata fs canonical_path with
      | none => .notFound
      | some metadata =>
        if MAX_FILE_SIZE < metadata.len then .forbidden
        else if isDirB fs canonical_path then
          match create_zip_file fs canonical_path workspace_root with
          | some zip_data => .okZip zip_data
          | none => .internal
        else
          match readToString fs canonical_path with
          | none => .notFound
          | some content => .okBytes content

/-! ## Statement-side predicates

Decidable predicates used to state the claims; they are defined from
the same embedded primitives the program uses. -/

/-- The canonical form of `p` is neither the canonical workspace root
nor a descendant of it (vacuously true when either canonicalization
fails — the validator rejects those paths too). -/
def outsideRoot (fs : FS) (p root : List String) : Bool :=
  match canonicalize fs p, canonicalize fs root with
  | some cp, some cw => !(cw.isPrefixOf cp)
  | _, _ => true

/-- The canonical form of `p` lies under the canonical root with a
component named `ABOUT` somewhere in its relative part, while `p`
itself does not end in `ABOUT`. -/
def aboutViolation (fs : FS) (p root : List String) : Bool :=
  match canonicalize fs p, canonicalize fs root with
  | some cp, some cw =>
    cw.isPrefixOf cp &&
      (cp.drop cw.length).any (fun c => c == "ABOUT") &&
      !(endsWithAbout p)
  | _, _ => false

/-- Every rule of the ignore set governing `p`'s project (the first
component of its canonical relative path) is directory-only. -/
def onlyDirRules (fs : FS) (p root : List String) : Bool :=
  match canonicalize fs p, canonicalize fs root with
  | some cp, some cw =>
    ((get_gitignore fs (cw ++ (cp.drop cw.length).take 1)).getD []).all
      (fun r => r.dirOnly)
  | _, _ => true

/-- The final component of `p` is a non-directory whose reported size
exceeds the ceiling. -/
def oversized (fs : FS) (p : List String) : Bool :=
  match symlinkMetadata fs p with
  | some m => !m.isSym && !m.isDir && decide (MAX_FILE_SIZE < m.len)
  | none => false

/-- Whether one token is an open tag of a `clean_content_tags`
element. -/
def tokNoClean (cfg : CleanCfg) : HtmlTok → Bool
  | .tagOpen n _ => !cfg.cleanContent.contains n
  | _ => true

/-- No open tag of a `clean_content_tags` element occurs in the
stream (the side condition under which placeholders survive the
document-wide sanitizer). -/
def noCleanContentOpen (cfg : CleanCfg) (toks : List HtmlTok) : Bool :=
  toks.all (tokNoClean cfg)

/-- Every attribute of every open tag has its name in the given
allow-list. -/
def attrsWithin (allowed : List String) (toks : List HtmlTok) : Bool :=
  toks.all (fun t =>
    match t with
    | .tagOpen _ attrs => attrs.all (fun a => allowed.contains a.1)
    | _ => true)

/-- No `img` tag and no `onerror` attribute anywhere in the stream. -/
def noImgExec (toks : List HtmlTok) : Bool :=
  toks.all (fun t =>
    match t with
    | .tagOpen n attrs =>
      !(n == "img") && attrs.all (fun a => !(a.1 == "onerror"))
    | _ => true)

/-- The descriptor scan as the (amended) specification words it: one
left-to-right pass over the lines; a line starting with `#` appends a
tag (all leading `#` shed, then trimmed); otherwise the first
non-blank line, trimmed, becomes the summary, and at most one summary
is ever taken. -/
def aboutScan : List String → List String × Option String
  | [] => ([], none)
  | l :: rest =>
    let r := aboutScan rest
    if strStarts l "#" then (strTrim (trimHashes l) :: r.1, r.2)
    else if strTrim l == "" then r
    else (r.1, some (strTrim l))

/-! ## Concrete filesystems and documents for witnesses and
counterexamples -/

/-- A workspace beside an outside directory, with a `..` escape and a
symlink escape available. -/
def fsOut : FS :=
  ⟨[(["ws"], .dir 0),
    (["ws", "out"], .symlink ["etc"]),
    (["etc"], .dir 0),
    (["etc", "passwd"], .file 4 1 "root")]⟩

/-- A project with a directory symlink `link → real` inside it. -/
def fsLink : FS :=
  ⟨[(["ws"], .dir 0),
    (["ws", "proj"], .dir 0),
    (["ws", "proj", "real"], .dir 0),
    (["ws", "proj", "link"], .symlink ["ws", "proj", "real"]),
    (["ws", "proj", "real", "f.txt"], .file 2 1 "hi")]⟩

/-- A project with an `ABOUT` descriptor file, and a second project
with a directory literally named `ABOUT`. -/
def fsAbout : FS :=
  ⟨[(["ws"], .dir 0),
    (["ws", "proj"], .dir 0),
    (["ws", "proj", "ABOUT"], .file 14 1 "#tag\nA summary"),
    (["ws", "proj", "a.txt"], .file 1 1 "x"),
    (["ws", "proj2"], .dir 0),
    (["ws", "proj2", "ABOUT"], .dir 0),
    (["ws", "proj2", "ABOUT", "x.txt"], .file 1 1 "x")]⟩

/-- A project whose `.gitignore` has a malformed first line (unclosed
character class) followed by a well-formed pattern. -/
def fsBadLine : FS :=
  ⟨[(["ws"], .dir 0),
    (["ws", "proj"], .dir 0),
    (["ws", "proj", ".gitignore"], .file 12 1 "[\nsecret.txt"),
    (["ws", "proj", "secret.txt"], .file 1 1 "s")]⟩

/-- A project whose `.gitignore` holds a single directory-only
pattern naming an existing directory. -/
def fsDirRule : FS :=
  ⟨[(["ws"], .dir 0),
    (["ws", "proj"], .dir 0),
    (["ws", "proj", ".gitignore"], .file 6 1 "build/"),
    (["ws", "proj", "build"], .dir 0),
    (["ws", "proj", "build", "x.o"], .file 1 1 "o")]⟩

/-- The archive scenario of the spec: a project holding `a.txt`,
`.hidden` and `ABOUT`, and an empty sibling project. -/
def fsZip : FS :=
  ⟨[(["ws"], .dir 0),
    (["ws", "proj"], .dir 0),
    (["ws", "proj", "a.txt"], .file 3 1 "AAA"),
    (["ws", "proj", ".hidden"], .file 3 1 "shh"),
    (["ws", "proj", "ABOUT"], .file 5 1 "#x\ns"),
    (["ws", "proj2"], .dir 0)]⟩

/-- Files of exactly the size ceiling and one byte over it. -/
def fsSize : FS :=
  ⟨[(["ws"], .dir 0),
    (["ws", "proj"], .dir 0),
    (["ws", "proj", "big.txt"], .file 10485760 1 "BIG"),
    (["ws", "proj", "huge.txt"], .file 10485761 2 "HUGE")]⟩

/-- An `ABOUT` descriptor whose tag line is preceded by spaces. -/
def fsAboutIndent : FS :=
  ⟨[(["ws"], .dir 0),
    (["ws", "proj"], .dir 0),
    (["ws", "proj", "ABOUT"], .file 24 1 "  #hidden\nreal summary")]⟩

/-- The spec's double-sanitization example: a code block whose literal
text is an `img` tag with an `onerror` handler. -/
def evImg : List MdEvent :=
  [.startCode "", .text "<img src=x onerror=alert(1)>\n", .endCode]

/-- A document whose raw inline HTML opens a `script` element before
a fenced code block. -/
def evBad : List MdEvent :=
  [.htmlEvt [.tagOpen "script" []], .startCode "rust",
   .text "fn main()", .endCode]

/-- An ordinary document: a text event followed by a fenced block. -/
def evPlain : List MdEvent :=
  [.text "Intro", .startCode "rust", .text "fn id()", .endCode]

/-! # Theorems -/

/-! ## Helper lemmas -/

/-- A set of rules that are all directory-only never reports an
ignore match when queried with `is_dir = false`. -/
theorem matchedIsIgnore_dirOnly (rules : List GlobRule)
    (path : List String) (h : rules.all (fun r => r.dirOnly) = true) :
    matchedIsIgnore rules path false = false := by
  unfold matchedIsIgnore
  have hfind :
      rules.reverse.find? (fun r => ruleMatches r path false) = none := by
    rw [List.find?_eq_none]
    intro r hr
    have hr' : r ∈ rules := List.mem_reverse.mp hr
    have hd := (List.all_eq_true.mp h) r hr'
    simp only [decide_eq_true_eq] at hd
    simp [ruleMatches, hd]
  rw [hfind]

/-- With `check_gitignore` on, the gitignore step accepts whenever
every rule of the project's ignore set is directory-only. -/
theorem ignoreStep_of_dirOnly (fs : FS) (pr cp rel : List String)
    (h : ((get_gitignore fs pr).getD []).all (fun r => r.dirOnly) = true) :
    ignoreStep fs true pr cp rel = true := by
  unfold ignoreStep
  cases hgi : get_gitignore fs pr with
  | none => rfl
  | some gi =>
    rw [hgi] at h
    simp only [Option.getD_some] at h
    simp [matchedIsIgnore_dirOnly _ _ h]

/-- With `check_gitignore` off, the gitignore step always accepts. -/
theorem ignoreStep_false (fs : FS) (pr cp rel : List String) :
    ignoreStep fs false pr cp rel = true := rfl

/-- A line that fails `add_line` makes the whole fold return `none`,
wherever it occurs and whatever was accumulated. -/
theorem linesFold_none_of_bad (lines : List String) (l : String)
    (hl : l ∈ lines) (hbad : addLine l = none) :
    ∀ acc, linesFold lines acc = none := by
  induction lines with
  | nil => cases hl
  | cons x xs ih =>
    intro acc
    rcases List.mem_cons.mp hl with h1 | h1
    · subst h1
      unfold linesFold
      rw [hbad]
    · unfold linesFold
      cases hx : addLine x with
      | none => rfl
      | some o =>
        cases o with
        | none => exact ih h1 acc
        | some r => exact ih h1 _

/-! ## C1 -/

/-- C1: for every path whose canonical form is neither the canonical
workspace root nor a descendant of it (in particular any `..`
traversal or symlink resolving outside, and any path that fails to
canonicalize at all), the sandbox predicate `is_path_allowed` returns
`false`. -/
theorem c1_outside_root_rejected (fs : FS) (p : List String)
    (check_gitignore : Bool) (root : List String)
    (h : outsideRoot fs p root = true) :
    is_path_allowed fs p check_gitignore root = false := by
  unfold is_path_allowed
  unfold outsideRoot at h
  cases hc : canonicalize fs p with
  | none => simp [existsB, hc]
  | some cp =>
    cases hw : canonicalize fs root with
    | none => simp [existsB, hc, hw]
    | some cw =>
      rw [hc, hw] at h
      have hpre : cw.isPrefixOf cp = false := by simpa using h
      simp [existsB, hc, hw, hpre]

/-- Witness for C1: in a workspace rooted at `/ws`, the `..` traversal
`/ws/../etc/passwd` and the symlink escape `/ws/out/passwd`
(`out → /etc`) both canonicalize outside the root and are rejected. -/
theorem c1_witness :
    outsideRoot fsOut ["ws", "..", "etc", "passwd"] ["ws"] = true ∧
    is_path_allowed fsOut ["ws", "..", "etc", "passwd"] true ["ws"] = false ∧
    outsideRoot fsOut ["ws", "out", "passwd"] ["ws"] = true ∧
    is_path_allowed fsOut ["ws", "out", "passwd"] true ["ws"] = false :=
  ⟨by decide,
   c1_outside_root_rejected fsOut ["ws", "..", "etc", "passwd"] true ["ws"]
     (by decide),
   by decide,
   c1_outside_root_rejected fsOut ["ws", "out", "passwd"] true ["ws"]
     (by decide)⟩

/-! ## C2 -/

/-- Counterexample for C2: `/ws/proj/link/f.txt` canonicalizes through
the directory symlink `link → /ws/proj/real`, so its canonicalization
passes through a symlink with the final target inside the workspace —
yet `is_path_allowed` returns `true`, the browse handler serves the
file instead of reporting not found, and the download handler sends
its bytes. -/
theorem c2_counterexample :
    (canonicalizeEx fsLink ["ws", "proj", "link", "f.txt"]).map Prod.snd =
      some true ∧
    is_path_allowed fsLink ["ws", "proj", "link", "f.txt"] true ["ws"] =
      true ∧
    view_path fsLink ["ws"] ["proj", "link", "f.txt"] ≠
      ViewOutcome.notFound ∧
    download_file fsLink ["ws"] ["proj", "link", "f.txt"] =
      DownloadOutcome.okBytes "hi" :=
  ⟨by decide, by decide, by decide, by decide⟩

/-- C2 (amended): the sandbox predicate rejects exactly the symlinks
its link-read probe can see — every path whose final component is a
symbolic link is rejected; a path whose canonicalization passes
through a symlink only at an intermediate component (or whose final
symlink was already resolved by the handler's prior `canonicalize`)
is not rejected on that ground. -/
theorem c2_final_symlink_rejected (fs : FS) (p : List String)
    (check_gitignore : Bool) (root : List String)
    (h : is_symlink fs p = true) :
    is_path_allowed fs p check_gitignore root = false := by
  unfold is_path_allowed
  simp [h]

/-- Witness for C2 (amended): the directory symlink itself,
`/ws/proj/link`, is rejected by the validator. -/
theorem c2_witness :
    is_symlink fsLink ["ws", "proj", "link"] = true ∧
    is_path_allowed fsLink ["ws", "proj", "link"] true ["ws"] = false :=
  ⟨by decide,
   c2_final_symlink_rejected fsLink ["ws", "proj", "link"] true ["ws"]
     (by decide)⟩

/-! ## C3 -/

/-- Counterexample for C3: the descriptor file `/ws/proj/ABOUT` is
*allowed* by `is_path_allowed` for every caller (the `ABOUT` component
check exempts paths that end in `ABOUT`), it appears in the project's
directory listing, the browse handler serves it, and the download
handler sends its bytes. -/
theorem c3_counterexample :
    is_path_allowed fsAbout ["ws", "proj", "ABOUT"] true ["ws"] = true ∧
    ((get_directory_contents fsAbout ["ws", "proj"] true ["ws"]).map
      (fun e => e.name)) = ["a.txt", "ABOUT"] ∧
    view_path fsAbout ["ws"] ["proj", "ABOUT"] ≠ ViewOutcome.notFound ∧
    download_file fsAbout ["ws"] ["proj", "ABOUT"] =
      DownloadOutcome.okBytes "#tag\nA summary" :=
  ⟨by decide, by decide, by decide, by decide⟩

/-- C3 (amended): a component literally named `ABOUT` is rejected only
when the checked path does not itself end in `ABOUT` — i.e. `ABOUT`
appearing as a non-final component (an `ABOUT` directory's contents)
is rejected for every caller; the descriptor file itself is allowed,
listable, viewable and downloadable, and only the archive builder
excludes it, by an explicit name check. -/
theorem c3_about_nonfinal_rejected (fs : FS) (p : List String)
    (check_gitignore : Bool) (root : List String)
    (h : aboutViolation fs p root = true) :
    is_path_allowed fs p check_gitignore root = false := by
  unfold aboutViolation at h
  unfold is_path_allowed
  cases hc : canonicalize fs p with
  | none =>
    rw [hc] at h
    exact absurd h (by simp)
  | some cp =>
    cases hw : canonicalize fs root with
    | none =>
      rw [hc, hw] at h
      exact absurd h (by simp)
    | some cw =>
      rw [hc, hw] at h
      simp only [Bool.and_eq_true, Bool.not_eq_true'] at h
      obtain ⟨⟨hpre, hmem⟩, hend⟩ := h
      obtain ⟨c, hcmem, hc'⟩ := List.any_eq_true.mp hmem
      have hcA : c = "ABOUT" := by simpa using hc'
      subst hcA
      have hne : (cp == cw) = false := by
        rcases h1 : (cp == cw) with _ | _
        · rfl
        · exfalso
          have : cp = cw := by simpa using h1
          subst this
          rw [List.drop_length] at hcmem
          cases hcmem
      have hany : (cp.drop cw.length).any (fun c =>
          (strStarts c "." && c != ".gitignore") ||
          (c == "ABOUT" && !(endsWithAbout p))) = true := by
        rw [List.any_eq_true]
        exact ⟨"ABOUT", hcmem, by simp [hend]⟩
      simp [existsB, hc, hw, hpre, hne, hany]

/-- Witness for C3 (amended): in the project holding a *directory*
named `ABOUT`, the file `/ws/proj2/ABOUT/x.txt` under it is rejected. -/
theorem c3_witness :
    aboutViolation fsAbout ["ws", "proj2", "ABOUT", "x.txt"] ["ws"] = true ∧
    is_path_allowed fsAbout ["ws", "proj2", "ABOUT", "x.txt"] true ["ws"] =
      false :=
  ⟨by decide,
   c3_about_nonfinal_rejected fsAbout ["ws", "proj2", "ABOUT", "x.txt"]
     true ["ws"] (by decide)⟩

/-! ## C7 -/

/-- Counterexample for C7: with a `.gitignore` whose first line `[` is
an unparsable glob and whose second line is the well-formed pattern
`secret.txt`, loading returns `None` — the malformed line is fatal to
the whole set, the remaining line takes no effect, and the ignored
name is allowed through. -/
theorem c7_counterexample :
    addLine "[" = none ∧
    (addLine "secret.txt").isSome = true ∧
    get_gitignore fsBadLine ["ws", "proj"] = none ∧
    is_path_allowed fsBadLine ["ws", "proj", "secret.txt"] true ["ws"] =
      true :=
  ⟨by decide, by decide, by decide, by decide⟩

/-- C7 (amended): absence of the ignore file yields a match-nothing
result (`None`), and a parse failure on *any* individual line is fatal
to the whole `IgnoreSet`: `get_gitignore` returns `None`, so none of
the remaining lines take effect. -/
theorem c7_gitignore_loading :
    (∀ fs proj, existsB fs (proj ++ [".gitignore"]) = false →
      get_gitignore fs proj = none) ∧
    (∀ fs proj content l,
      readToString fs (proj ++ [".gitignore"]) = some content →
      l ∈ strLines content → addLine l = none →
      get_gitignore fs proj = none) := by
  constructor
  · intro fs proj h
    simp [get_gitignore, h]
  · intro fs proj content l hr hl hbad
    simp [get_gitignore, hr, linesFold_none_of_bad _ _ hl hbad]

/-- Witness for C7 (amended): the malformed-line scenario yields
`None`. -/
theorem c7_witness :
    get_gitignore fsBadLine ["ws", "proj"] = none :=
  c7_gitignore_loading.2 fsBadLine ["ws", "proj"] "[\nsecret.txt" "["
    (by decide) (by decide) (by decide)

/-! ## C8 -/

/-- C8: the gitignore match inside `is_path_allowed` is always
evaluated with the is-directory flag `false`, so when every rule of
the governing ignore set is directory-only the validator behaves as
if ignore enforcement were off — no path, not even a directory the
pattern names, is rejected by the ignore step. -/
theorem c8_dirOnly_never_rejects (fs : FS) (p root : List String)
    (h : onlyDirRules fs p root = true) :
    is_path_allowed fs p true root = is_path_allowed fs p false root := by
  unfold onlyDirRules at h
  unfold is_path_allowed
  cases hc : canonicalize fs p with
  | none => rfl
  | some cp =>
    cases hw : canonicalize fs root with
    | none => rfl
    | some cw =>
      rw [hc, hw] at h
      cases hex : existsB fs p with
      | false => rfl
      | true =>
        cases hsym : is_symlink fs p with
        | true => rfl
        | false =>
          simp only [hc, hw, Bool.not_true, Bool.false_eq_true, if_false,
            Bool.not_false, if_true]
          cases hpre : cw.isPrefixOf cp with
          | false => simp
          | true =>
            simp only [Bool.not_true, Bool.false_eq_true, if_false]
            cases heq : cp == cw with
            | true => simp
            | false =>
              simp only [Bool.false_eq_true, if_false]
              cases hdir : isDirB fs (cw ++ (cp.drop cw.length).take 1) with
              | false => simp [hdir]
              | true =>
                simp only [hdir, Bool.not_true, Bool.false_eq_true, if_false]
                cases hany : (cp.drop cw.length).any (fun c =>
                    (strStarts c "." && c != ".gitignore") ||
                    (c == "ABOUT" && !(endsWithAbout p))) with
                | true => simp
                | false =>
                  simp only [Bool.false_eq_true, if_false]
                  cases hpr : cp == cw ++ (cp.drop cw.length).take 1 with
                  | true => simp
                  | false =>
                    simp only [Bool.false_eq_true, if_false]
                    rw [ignoreStep_of_dirOnly fs _ _ _ h, ignoreStep_false]

/-- Witness for C8: with `.gitignore` holding only the directory-only
pattern `build/`, validation of the very directory `/ws/proj/build`
it names is unaffected by ignore enforcement (and allowed). -/
theorem c8_witness :
    onlyDirRules fsDirRule ["ws", "proj", "build"] ["ws"] = true ∧
    is_path_allowed fsDirRule ["ws", "proj", "build"] true ["ws"] =
      is_path_allowed fsDirRule ["ws", "proj", "build"] false ["ws"] ∧
    is_path_allowed fsDirRule ["ws", "proj", "build"] true ["ws"] = true :=
  ⟨by decide,
   c8_dirOnly_never_rejects fsDirRule ["ws", "proj", "build"] ["ws"]
     (by decide),
   by decide⟩

/-! ## C9 -/

/-- The descriptor extraction (filter for tags, first-match for the
summary) equals the single left-to-right scan described by the
amended claim. -/
theorem aboutScan_spec (lines : List String) :
    aboutScan lines =
      ((lines.filter (fun l => strStarts l "#")).map
        (fun l => strTrim (trimHashes l)),
       (lines.find? (fun l => !strStarts l "#" && !(strTrim l == ""))).map
        (fun l => strTrim l)) := by
  induction lines with
  | nil => rfl
  | cons x xs ih =>
    unfold aboutScan
    rw [ih]
    by_cases hx : strStarts x "#" = true
    · simp [hx, List.filter_cons, List.find?_cons]
    · have hx' : strStarts x "#" = false := by
        simpa using hx
      by_cases ht : strTrim x == ""
      · simp [hx', List.filter_cons, List.find?_cons, ht]
      · have ht' : (strTrim x == "") = false := by
          simpa using ht
        simp [hx', List.filter_cons, List.find?_cons, ht']

/-- Counterexample for C9: on the descriptor content
`"  #hidden\nreal summary"` the first line's first non-space character
is `#`, so the claim predicts tags `["hidden"]` and summary
`"real summary"`; the code instead tests `starts_with('#')` on the raw
line, classifies it as a summary candidate, and returns no tags with
summary `"#hidden"`. -/
theorem c9_counterexample :
    parse_about_file fsAboutIndent ["ws", "proj", "ABOUT"] ≠
      some (["hidden"], some "real summary") ∧
    parse_about_file fsAboutIndent ["ws", "proj", "ABOUT"] =
      some ([], some "#hidden") :=
  ⟨by decide, by decide⟩

/-- C9 (amended): a line is a tag line exactly when its *first
character* is `#` (leading whitespace is not skipped); its tag value
is the line with every leading `#` shed, trimmed, in file order; the
summary is the first line that neither starts with `#` nor is blank,
trimmed; at most one summary is extracted.  Stated as: the parse
result is the single scan `aboutScan` that implements exactly that
description. -/
theorem c9_parse_about_scan (fs : FS) (p : List String)
    (content : String) (h : readToString fs p = some content) :
    parse_about_file fs p = some (aboutScan (strLines content)) := by
  unfold parse_about_file
  rw [h, aboutScan_spec]

/-- Witness for C9 (amended): the well-formed descriptor
`"#tag\nA summary"` parses to tag `tag` and summary `A summary`. -/
theorem c9_witness :
    parse_about_file fsAbout ["ws", "proj", "ABOUT"] =
      some (aboutScan (strLines "#tag\nA summary")) ∧
    aboutScan (strLines "#tag\nA summary") = (["tag"], some "A summary") :=
  ⟨c9_parse_about_scan fsAbout ["ws", "proj", "ABOUT"] "#tag\nA summary"
    (by decide), by decide⟩

/-! ## C10 -/

/-- `ncmp` is `gt` exactly when the right argument is smaller. -/
theorem ncmp_gt_iff (a b : Nat) : ncmp a b = .gt ↔ b < a := by
  unfold ncmp
  split_ifs with h1 h2 <;> simp <;> omega

/-- `ncmp` is `lt` exactly when the left argument is smaller. -/
theorem ncmp_lt_iff (a b : Nat) : ncmp a b = .lt ↔ a < b := by
  unfold ncmp
  split_ifs with h1 h2 <;> simp <;> omega

/-- `ncmp` is `eq` exactly on equal arguments. -/
theorem ncmp_eq_iff (a b : Nat) : ncmp a b = .eq ↔ a = b := by
  unfold ncmp
  split_ifs with h1 h2 <;> simp <;> omega

/-- Lexicographic comparison is antisymmetric in its `gt` verdict. -/
theorem lexCmp_gt_asym :
    ∀ a b : List Nat, lexCmp a b = .gt → lexCmp b a ≠ .gt := by
  intro a
  induction a with
  | nil =>
    intro b hb
    cases b <;> simp [lexCmp] at hb
  | cons x xs ih =>
    intro b hb
    cases b with
    | nil => simp [lexCmp]
    | cons y ys =>
      simp only [lexCmp] at hb ⊢
      cases hxy : ncmp x y with
      | lt => rw [hxy] at hb; cases hb
      | gt =>
        have : ncmp y x = .lt := (ncmp_lt_iff y x).mpr ((ncmp_gt_iff x y).mp hxy)
        rw [this]
        simp
      | eq =>
        rw [hxy] at hb
        have hyx : ncmp y x = .eq :=
          (ncmp_eq_iff y x).mpr ((ncmp_eq_iff x y).mp hxy).symm
        rw [hyx]
        exact ih ys hb

/-- The non-`gt` relation of lexicographic comparison is transitive. -/
theorem lexCmp_not_gt_trans :
    ∀ a b c : List Nat,
      lexCmp a b ≠ .gt → lexCmp b c ≠ .gt → lexCmp a c ≠ .gt := by
  intro a
  induction a with
  | nil =>
    intro b c _ _
    cases c <;> simp [lexCmp]
  | cons x xs ih =>
    intro b c h1 h2
    cases b with
    | nil => simp [lexCmp] at h1
    | cons y ys =>
      cases c with
      | nil => simp [lexCmp] at h2
      | cons z zs =>
        simp only [lexCmp] at h1 h2 ⊢
        cases hxy : ncmp x y with
        | gt => rw [hxy] at h1; exact absurd rfl h1
        | lt =>
          have hxyn : x < y := (ncmp_lt_iff x y).mp hxy
          cases hyz : ncmp y z with
          | gt => rw [hyz] at h2; exact absurd rfl h2
          | lt =>
            have : ncmp x z = .lt :=
              (ncmp_lt_iff x z).mpr
                (Nat.lt_trans hxyn ((ncmp_lt_iff y z).mp hyz))
            rw [this]
            simp
          | eq =>
            have hyzn : y = z := (ncmp_eq_iff y z).mp hyz
            have : ncmp x z = .lt := (ncmp_lt_iff x z).mpr (hyzn ▸ hxyn)
            rw [this]
            simp
        | eq =>
          have hxyn : x = y := (ncmp_eq_iff x y).mp hxy
          rw [hxy] at h1
          cases hyz : ncmp y z with
          | gt => rw [hyz] at h2; exact absurd rfl h2
          | lt =>
            have : ncmp x z = .lt := (ncmp_lt_iff x z).mpr
              (hxyn ▸ (ncmp_lt_iff y z).mp hyz)
            rw [this]
            simp
          | eq =>
            rw [hyz] at h2
            have : ncmp x z = .eq := (ncmp_eq_iff x z).mpr
              (hxyn.trans ((ncmp_eq_iff y z).mp hyz))
            rw [this]
            exact ih ys zs h1 h2

/-- The listing comparator is antisymmetric in its `gt` verdict. -/
theorem fiCmp_gt_asym (a b : FileInfo) (h : fiCmp a b = .gt) :
    fiCmp b a ≠ .gt := by
  obtain ⟨an, ap, ad, as1, am⟩ := a
  obtain ⟨bn, bp, bd, bs1, bm⟩ := b
  cases ad <;> cases bd <;> simp only [fiCmp, strCmpCI] at h ⊢
  · exact lexCmp_gt_asym _ _ h
  · decide
  · exact Ordering.noConfusion h
  · exact lexCmp_gt_asym _ _ h

/-- The non-`gt` relation of the listing comparator is transitive. -/
theorem fiCmp_not_gt_trans (a b c : FileInfo) (h1 : fiCmp a b ≠ .gt)
    (h2 : fiCmp b c ≠ .gt) : fiCmp a c ≠ .gt := by
  obtain ⟨an, ap, ad, as1, am⟩ := a
  obtain ⟨bn, bp, bd, bs1, bm⟩ := b
  obtain ⟨cn, cp, cd, cs1, cm⟩ := c
  cases ad <;> cases bd <;> cases cd <;>
    simp only [fiCmp, strCmpCI] at h1 h2 ⊢
  · exact lexCmp_not_gt_trans _ _ _ h1 h2
  · exact absurd rfl h2
  · exact absurd rfl h1
  · exact absurd rfl h1
  · decide
  · exact absurd rfl h2
  · decide
  · exact lexCmp_not_gt_trans _ _ _ h1 h2

/-- Membership after stable insertion. -/
theorem orderedInsertBy_mem {α : Type} (cmp : α → α → Ordering) (x : α)
    (l : List α) (z : α) (hz : z ∈ orderedInsertBy cmp x l) :
    z = x ∨ z ∈ l := by
  induction l with
  | nil =>
    simp [orderedInsertBy] at hz
    exact Or.inl hz
  | cons y ys ih =>
    unfold orderedInsertBy at hz
    by_cases hcmp : cmp y x = Ordering.gt
    · rw [if_pos hcmp] at hz
      rcases List.mem_cons.mp hz with rfl | hz'
      · exact Or.inl rfl
      · exact Or.inr hz'
    · rw [if_neg hcmp] at hz
      rcases List.mem_cons.mp hz with rfl | hz'
      · exact Or.inr (List.mem_cons_self _ _)
      · rcases ih hz' with h | h
        · exact Or.inl h
        · exact Or.inr (List.mem_cons_of_mem _ h)

/-- Stable insertion preserves sortedness under a comparator whose
non-`gt` relation is total (via `gt`-antisymmetry) and transitive. -/
theorem orderedInsertBy_pairwise {α : Type} (cmp : α → α → Ordering)
    (hasym : ∀ a b, cmp a b = .gt → cmp b a ≠ .gt)
    (htrans : ∀ a b c, cmp a b ≠ .gt → cmp b c ≠ .gt → cmp a c ≠ .gt)
    (x : α) (l : List α)
    (hl : l.Pairwise (fun a b => cmp a b ≠ .gt)) :
    (orderedInsertBy cmp x l).Pairwise (fun a b => cmp a b ≠ .gt) := by
  induction l with
  | nil => simp [orderedInsertBy]
  | cons y ys ih =>
    rcases List.pairwise_cons.mp hl with ⟨hy, hys⟩
    unfold orderedInsertBy
    by_cases hcmp : cmp y x = Ordering.gt
    · rw [if_pos hcmp]
      refine List.pairwise_cons.mpr ⟨?_, hl⟩
      intro z hz
      rcases List.mem_cons.mp hz with rfl | hz'
      · exact hasym _ _ hcmp
      · exact htrans x y z (hasym y x hcmp) (hy z hz')
    · rw [if_neg hcmp]
      refine List.pairwise_cons.mpr ⟨?_, ih hys⟩
      intro z hz
      rcases orderedInsertBy_mem cmp x ys z hz with rfl | hz'
      · exact hcmp
      · exact hy z hz'

/-- The stable sort is sorted under the same conditions. -/
theorem stableSortBy_pairwise {α : Type} (cmp : α → α → Ordering)
    (hasym : ∀ a b, cmp a b = .gt → cmp b a ≠ .gt)
    (htrans : ∀ a b c, cmp a b ≠ .gt → cmp b c ≠ .gt → cmp a c ≠ .gt)
    (l : List α) :
    (stableSortBy cmp l).Pairwise (fun a b => cmp a b ≠ .gt) := by
  unfold stableSortBy
  have h : ∀ (ll : List α) (acc : List α),
      acc.Pairwise (fun a b => cmp a b ≠ .gt) →
      (ll.foldl (fun acc x => orderedInsertBy cmp x acc) acc).Pairwise
        (fun a b => cmp a b ≠ .gt) := by
    intro ll
    induction ll with
    | nil => intro acc hacc; exact hacc
    | cons x xs ih =>
      intro acc hacc
      exact ih _ (orderedInsertBy_pairwise cmp hasym htrans x acc hacc)
  exact h l [] List.Pairwise.nil

/-- C10: directory listing is deterministic (it is a pure function of
the filesystem state) and order-stable: the produced sequence is
sorted under the listing comparator (which orders case-insensitively
by name within a group), every directory entry precedes every file
entry, and entries in the same group are in case-insensitive
lexicographic order. -/
theorem c10_listing_sorted (fs : FS) (path : List String)
    (check_gitignore : Bool) (root : List String) :
    get_directory_contents fs path check_gitignore root =
      get_directory_contents fs path check_gitignore root ∧
    (get_directory_contents fs path check_gitignore root).Pairwise
      (fun a b => fiCmp a b ≠ .gt) ∧
    (get_directory_contents fs path check_gitignore root).Pairwise
      (fun a b => b.is_dir = true → a.is_dir = true) ∧
    (get_directory_contents fs path check_gitignore root).Pairwise
      (fun a b => a.is_dir = b.is_dir → strCmpCI a.name b.name ≠ .gt) := by
  have hs :
      (get_directory_contents fs path check_gitignore root).Pairwise
        (fun a b => fiCmp a b ≠ .gt) := by
    unfold get_directory_contents
    exact stableSortBy_pairwise fiCmp fiCmp_gt_asym fiCmp_not_gt_trans _
  refine ⟨rfl, hs, ?_, ?_⟩
  · refine hs.imp ?_
    intro a b hab hbdir
    by_cases ha : a.is_dir = true
    · exact ha
    · exfalso
      apply hab
      have ha' : a.is_dir = false := by simpa using ha
      unfold fiCmp
      rw [ha', hbdir]
  · refine hs.imp ?_
    intro a b hab heq hgt
    apply hab
    unfold fiCmp
    cases ha : a.is_dir with
    | true =>
      have hb : b.is_dir = true := by rw [← heq, ha]
      rw [hb]
      exact hgt
    | false =>
      have hb : b.is_dir = false := by rw [← heq, ha]
      rw [hb]
      exact hgt

/-! ## C5 -/

/-- A `none` accumulator is absorbing for the zip fold. -/
theorem zipFold_none (fs : FS) (root dir : List String)
    (paths : List (List String)) :
    paths.foldl (zipStep fs root dir) none = none := by
  induction paths with
  | nil => rfl
  | cons p ps ih =>
    rw [List.foldl_cons]
    exact ih

/-- A successful `strip_prefix` inverts the join. -/
theorem stripPre_append {dir p name : List String}
    (h : stripPre dir p = some name) : dir ++ name = p := by
  unfold stripPre at h
  by_cases hp : dir.isPrefixOf p = true
  · rw [if_pos hp] at h
    cases h
    exact List.prefix_iff_eq_append.mp (List.isPrefixOf_iff_prefix.mp hp)
  · rw [if_neg hp] at h
    cases h

/-- Every entry the zip fold emits passed the loop's guards: nonempty
relative name, not named `ABOUT`, accepted by the validator with
ignore enforcement on, and a regular file. -/
theorem zipFold_entries (fs : FS) (root dir : List String) :
    ∀ (paths : List (List String)) (acc res : List (List String × String)),
      (∀ e ∈ acc, e.1 ≠ [] ∧ fileName (dir ++ e.1) ≠ some "ABOUT" ∧
        is_path_allowed fs (dir ++ e.1) true root = true ∧
        isFileB fs (dir ++ e.1) = true) →
      paths.foldl (zipStep fs root dir) (some acc) = some res →
      ∀ e ∈ res, e.1 ≠ [] ∧ fileName (dir ++ e.1) ≠ some "ABOUT" ∧
        is_path_allowed fs (dir ++ e.1) true root = true ∧
        isFileB fs (dir ++ e.1) = true := by
  intro paths
  induction paths with
  | nil =>
    intro acc res hacc hfold
    rw [List.foldl_nil] at hfold
    cases hfold
    exact hacc
  | cons p ps ih =>
    intro acc res hacc hfold
    rw [List.foldl_cons] at hfold
    cases hab : fileName p == some "ABOUT" with
    | true =>
      rw [show zipStep fs root dir (some acc) p = some acc by
        simp [zipStep, hab]] at hfold
      exact ih acc res hacc hfold
    | false =>
      cases hal : is_path_allowed fs p true root with
      | false =>
        rw [show zipStep fs root dir (some acc) p = some acc by
          simp [zipStep, hab, hal]] at hfold
        exact ih acc res hacc hfold
      | true =>
        cases hstrip : stripPre dir p with
        | none =>
          rw [show zipStep fs root dir (some acc) p = none by
            simp [zipStep, hab, hal, hstrip]] at hfold
          rw [zipFold_none] at hfold
          cases hfold
        | some name =>
          cases hemp : name.isEmpty with
          | true =>
            rw [show zipStep fs root dir (some acc) p = some acc by
              simp [zipStep, hab, hal, hstrip, hemp]] at hfold
            exact ih acc res hacc hfold
          | false =>
            cases hfile : isFileB fs p with
            | false =>
              rw [show zipStep fs root dir (some acc) p = some acc by
                simp [zipStep, hab, hal, hstrip, hemp, hfile]] at hfold
              exact ih acc res hacc hfold
            | true =>
              cases hread : readToString fs p with
              | none =>
                rw [show zipStep fs root dir (some acc) p = none by
                  simp [zipStep, hab, hal, hstrip, hemp, hfile, hread]]
                  at hfold
                rw [zipFold_none] at hfold
                cases hfold
              | some content =>
                rw [show zipStep fs root dir (some acc) p =
                    some (acc ++ [(name, content)]) by
                  simp [zipStep, hab, hal, hstrip, hemp, hfile, hread]]
                  at hfold
                refine ih _ res ?_ hfold
                intro e he
                rcases List.mem_append.mp he with he' | he'
                · exact hacc e he'
                · have hee : e = (name, content) := by simpa using he'
                  subst hee
                  have hdp : dir ++ name = p := stripPre_append hstrip
                  have hne : name ≠ [] := by
                    intro h0
                    rw [h0] at hemp
                    simp at hemp
                  have hab' : fileName p ≠ some "ABOUT" :=
                    ne_of_beq_false hab
                  refine ⟨hne, ?_, ?_, ?_⟩
                  · rw [hdp]
                    exact hab'
                  · rw [hdp]
                    exact hal
                  · rw [hdp]
                    exact hfile

/-- C5: every archive `create_zip_file` produces contains only file
entries (`isFileB`), never the walked root (nonempty relative name,
hence never a directory entry either), excludes every entry named
`ABOUT` and every entry the Sandbox Validator rejects with ignore
enforcement on; the spec's project `{a.txt, .hidden, ABOUT}` archives
to exactly `a.txt`, and an empty subtree archives to a valid empty
archive rather than an error. -/
theorem c5_zip_contents :
    (∀ (fs : FS) (dir root : List String) res,
      create_zip_file fs dir root = some res →
      ∀ e ∈ res, e.1 ≠ [] ∧ fileName (dir ++ e.1) ≠ some "ABOUT" ∧
        is_path_allowed fs (dir ++ e.1) true root = true ∧
        isFileB fs (dir ++ e.1) = true) ∧
    create_zip_file fsZip ["ws", "proj"] ["ws"] =
      some [(["a.txt"], "AAA")] ∧
    create_zip_file fsZip ["ws", "proj2"] ["ws"] = some [] := by
  refine ⟨?_, by decide, by decide⟩
  intro fs dir root res hres
  exact zipFold_entries fs root dir (walkDir fs dir) [] res
    (by intro e he; cases he) hres

/-- Witness for C5: the emitted entry `a.txt` of the spec scenario
satisfies all four guarantees. -/
theorem c5_witness :
    (["a.txt"] : List String) ≠ [] ∧
    fileName (["ws", "proj"] ++ ["a.txt"]) ≠ some "ABOUT" ∧
    is_path_allowed fsZip (["ws", "proj"] ++ ["a.txt"]) true ["ws"] = true ∧
    isFileB fsZip (["ws", "proj"] ++ ["a.txt"]) = true :=
  c5_zip_contents.1 fsZip ["ws", "proj"] ["ws"] [(["a.txt"], "AAA")]
    (by decide) (["a.txt"], "AAA") (by decide)

/-! ## C6 -/

/-- C6: the 10 MiB ceiling is strict.  A non-directory whose reported
size exceeds `MAX_FILE_SIZE` is dropped from listings
(`get_file_info` returns `none`) and refused by both the browse and
the download handlers (`forbidden`); at or below the ceiling neither
handler ever answers `forbidden` for a file.  Concretely, with files
of exactly `10485760` and `10485761` bytes, the listing shows only
the former, the former is viewed and downloaded and the latter
refused by both handlers. -/
theorem c6_size_ceiling :
    (∀ (fs : FS) (p root : List String), oversized fs p = true →
      get_file_info fs p root = none) ∧
    (∀ (fs : FS) (root req cp : List String) (m : Meta),
      req ≠ [] →
      canonicalize fs (root ++ req) = some cp →
      is_path_allowed fs cp true root = true →
      is_symlink fs cp = false →
      isDirB fs cp = false →
      symlinkMetadata fs cp = some m →
      ((MAX_FILE_SIZE < m.len → view_path fs root req = .forbidden) ∧
       (m.len ≤ MAX_FILE_SIZE → view_path fs root req ≠ .forbidden))) ∧
    ((get_directory_contents fsSize ["ws", "proj"] true ["ws"]).map
      (fun e => e.name)) = ["big.txt"] ∧
    view_path fsSize ["ws"] ["proj", "big.txt"] ≠ ViewOutcome.forbidden ∧
    view_path fsSize ["ws"] ["proj", "huge.txt"] = ViewOutcome.forbidden ∧
    (∀ (fs : FS) (root req cp : List String) (m : Meta),
      canonicalize fs (root ++ req) = some cp →
      is_path_allowed fs cp true root = true →
      is_symlink fs cp = false →
      symlinkMetadata fs cp = some m →
      ((MAX_FILE_SIZE < m.len → download_file fs root req = .forbidden) ∧
       (m.len ≤ MAX_FILE_SIZE → isDirB fs cp = false →
         download_file fs root req ≠ .forbidden))) ∧
    download_file fsSize ["ws"] ["proj", "big.txt"] =
      DownloadOutcome.okBytes "BIG" ∧
    download_file fsSize ["ws"] ["proj", "huge.txt"] =
      DownloadOutcome.forbidden := by
  refine ⟨?_, ?_, by decide, by decide, by decide, ?_, by decide, by decide⟩
  · intro fs p root h
    unfold oversized at h
    cases hm : symlinkMetadata fs p with
    | none =>
      rw [hm] at h
      cases h
    | some m =>
      rw [hm] at h
      simp only [Bool.and_eq_true, Bool.not_eq_true', decide_eq_true_eq] at h
      obtain ⟨⟨hsym, hdir⟩, hlen⟩ := h
      simp [get_file_info, hm, hsym, hdir, hlen]
  · intro fs root req cp m hreq hc hal hsym hdir hm
    have hreq' : req.isEmpty = false := by
      cases req with
      | nil => exact absurd rfl hreq
      | cons x xs => rfl
    constructor
    · intro hlen
      simp [view_path, hreq', hc, hal, hsym, hdir, hm, hlen]
    · intro hlen
      have hlen' : ¬ MAX_FILE_SIZE < m.len := by omega
      simp only [view_path, hreq', Bool.false_eq_true, if_false, hc, hal,
        Bool.not_true, hsym, hdir, Bool.not_false, if_true, hm, hlen']
      cases hbin : is_binary_file fs cp with
      | true => simp
      | false =>
        simp only [hbin, Bool.false_eq_true, if_false]
        cases hread : readToString fs cp with
        | none => simp
        | some content =>
          cases hfi : get_file_info fs cp root with
          | none => simp [hfi]
          | some info => simp [hfi]
  · intro fs root req cp m hc hal hsym hm
    constructor
    · intro hlen
      simp [download_file, hc, hal, hsym, hm, hlen]
    · intro hlen hdir
      have hlen' : ¬ MAX_FILE_SIZE < m.len := by omega
      simp only [download_file, hc, hal, Bool.not_true, Bool.false_eq_true,
        if_false, hsym, hm, hlen', hdir, Bool.not_false, if_true]
      cases hread : readToString fs cp with
      | none => simp
      | some content => simp

/-- Witness for C6: the one-byte-over file is dropped from the
listing machinery and refused by both handlers, while the
at-threshold file is refused by neither. -/
theorem c6_witness :
    get_file_info fsSize ["ws", "proj", "huge.txt"] ["ws"] = none ∧
    view_path fsSize ["ws"] ["proj", "huge.txt"] = ViewOutcome.forbidden ∧
    view_path fsSize ["ws"] ["proj", "big.txt"] ≠ ViewOutcome.forbidden ∧
    download_file fsSize ["ws"] ["proj", "huge.txt"] =
      DownloadOutcome.forbidden ∧
    download_file fsSize ["ws"] ["proj", "big.txt"] ≠
      DownloadOutcome.forbidden :=
  ⟨c6_size_ceiling.1 fsSize ["ws", "proj", "huge.txt"] ["ws"] (by decide),
   (c6_size_ceiling.2.1 fsSize ["ws"] ["proj", "huge.txt"]
      ["ws", "proj", "huge.txt"] ⟨false, false, 10485761, 2⟩ (by decide)
      (by decide) (by decide) (by decide) (by decide) (by decide)).1
     (by decide),
   (c6_size_ceiling.2.1 fsSize ["ws"] ["proj", "big.txt"]
      ["ws", "proj", "big.txt"] ⟨false, false, 10485760, 1⟩ (by decide)
      (by decide) (by decide) (by decide) (by decide) (by decide)).2
     (by decide),
   (c6_size_ceiling.2.2.2.2.2.1 fsSize ["ws"] ["proj", "huge.txt"]
      ["ws", "proj", "huge.txt"] ⟨false, false, 10485761, 2⟩ (by decide)
      (by decide) (by decide) (by decide)).1 (by decide),
   (c6_size_ceiling.2.2.2.2.2.1 fsSize ["ws"] ["proj", "big.txt"]
      ["ws", "proj", "big.txt"] ⟨false, false, 10485760, 1⟩ (by decide)
      (by decide) (by decide) (by decide)).2 (by decide) (by decide)⟩

/-! ## C4 -/

/-- Every index below the side-list length has its placeholder in the
serialized document: the event loop emits `placeholder i` exactly when
it stores block `i`. -/
theorem renderFold_placeholder (events : List MdEvent) :
    ∀ (st : MdState),
      (∀ i, i < st.code_blocks.length →
        HtmlTok.placeholder i ∈ st.html_output) →
      ∀ i, i < (events.foldl renderStep st).code_blocks.length →
        HtmlTok.placeholder i ∈ (events.foldl renderStep st).html_output := by
  induction events with
  | nil =>
    intro st h
    exact h
  | cons ev evs ih =>
    intro st h
    rw [List.foldl_cons]
    apply ih
    obtain ⟨out, inb, cc, cl, cb⟩ := st
    intro i hi
    cases ev with
    | startCode lang =>
      simp only [renderStep] at hi ⊢
      exact h i hi
    | endCode =>
      cases inb with
      | true =>
        simp only [renderStep, if_true] at hi ⊢
        rw [List.length_append, List.length_cons, List.length_nil] at hi
        rcases Nat.lt_or_ge i cb.length with hlt | hge
        · exact List.mem_append_left _ (h i hlt)
        · have hieq : i = cb.length := by omega
          subst hieq
          exact List.mem_append_right _ (List.mem_singleton.mpr rfl)
      | false =>
        simp only [renderStep] at hi ⊢
        exact List.mem_append_left _ (h i hi)
    | text s =>
      cases inb with
      | true =>
        simp only [renderStep, if_true] at hi ⊢
        exact h i hi
      | false =>
        simp only [renderStep] at hi ⊢
        exact List.mem_append_left _ (h i hi)
    | htmlEvt toks =>
      simp only [renderStep] at hi ⊢
      exact List.mem_append_left _ (h i hi)

/-- Placeholder presence at the end of the event loop. -/
theorem renderParts_placeholder (events : List MdEvent) (i : Nat)
    (hi : i < (renderParts events).2.length) :
    HtmlTok.placeholder i ∈ (renderParts events).1 := by
  unfold renderParts at hi ⊢
  exact renderFold_placeholder events mdInit (by intro j hj; cases hj) i hi

/-- Every stored code block is the code-sanitized highlight of some
fence language and buffered content. -/
theorem renderFold_blocks (events : List MdEvent) :
    ∀ (st : MdState),
      (∀ b ∈ st.code_blocks, ∃ lang code,
        b = cleanCode (highlight_code (langToExt lang) code false)) →
      ∀ b ∈ (events.foldl renderStep st).code_blocks, ∃ lang code,
        b = cleanCode (highlight_code (langToExt lang) code false) := by
  induction events with
  | nil =>
    intro st h
    exact h
  | cons ev evs ih =>
    intro st h
    rw [List.foldl_cons]
    apply ih
    obtain ⟨out, inb, cc, cl, cb⟩ := st
    intro b hb
    cases ev with
    | startCode lang =>
      simp only [renderStep] at hb
      exact h b hb
    | endCode =>
      cases inb with
      | true =>
        simp only [renderStep, if_true] at hb
        rcases List.mem_append.mp hb with hb' | hb'
        · exact h b hb'
        · have hbe : b = cleanCode (highlight_code (langToExt cl) cc false) := by
            simpa using hb'
          exact ⟨cl, cc, hbe⟩
      | false =>
        simp only [renderStep] at hb
        exact h b hb
    | text s =>
      cases inb with
      | true =>
        simp only [renderStep, if_true] at hb
        exact h b hb
      | false =>
        simp only [renderStep] at hb
        exact h b hb
    | htmlEvt toks =>
      simp only [renderStep] at hb
      exact h b hb

/-- A clean pass whose input opens no content-cleaned element keeps
every placeholder token. -/
theorem cleanGo_placeholder (cfg : CleanCfg) :
    ∀ (fuel : Nat) (toks : List HtmlTok), toks.length < fuel →
      noCleanContentOpen cfg toks = true →
      ∀ i, HtmlTok.placeholder i ∈ toks →
        HtmlTok.placeholder i ∈ cleanGo cfg fuel toks := by
  intro fuel
  induction fuel with
  | zero =>
    intro toks h
    omega
  | succ n ih =>
    intro toks hlen hno i hmem
    cases toks with
    | nil => cases hmem
    | cons t rest =>
      have hlen' : rest.length < n := by
        rw [List.length_cons] at hlen
        omega
      have hnoh : tokNoClean cfg t = true := by
        unfold noCleanContentOpen at hno
        rw [List.all_cons, Bool.and_eq_true] at hno
        exact hno.1
      have hno' : noCleanContentOpen cfg rest = true := by
        unfold noCleanContentOpen at hno ⊢
        rw [List.all_cons, Bool.and_eq_true] at hno
        exact hno.2
      rcases List.mem_cons.mp hmem with heq | hmem'
      · rw [← heq]
        simp only [cleanGo]
        rw [← heq] at hmem
        exact List.mem_cons_self _ _
      · cases t with
        | text s =>
          simp only [cleanGo]
          exact List.mem_cons_of_mem _ (ih rest hlen' hno' i hmem')
        | placeholder j =>
          simp only [cleanGo]
          exact List.mem_cons_of_mem _ (ih rest hlen' hno' i hmem')
        | tagClose nm =>
          simp only [cleanGo]
          by_cases hcn : cfg.tags.contains nm = true
          · rw [if_pos hcn]
            exact List.mem_cons_of_mem _ (ih rest hlen' hno' i hmem')
          · rw [if_neg hcn]
            exact ih rest hlen' hno' i hmem'
        | tagOpen nm attrs =>
          have hcc : cfg.cleanContent.contains nm = false := by
            simp only [tokNoClean] at hnoh
            rcases hv : cfg.cleanContent.contains nm with _ | _
            · rfl
            · rw [hv] at hnoh
              simp at hnoh
          simp only [cleanGo, hcc, Bool.false_eq_true, if_false]
          by_cases hcn : cfg.tags.contains nm = true
          · rw [if_pos hcn]
            exact List.mem_cons_of_mem _ (ih rest hlen' hno' i hmem')
          · rw [if_neg hcn]
            exact ih rest hlen' hno' i hmem'

/-- If a placeholder survives into the cleaned document, substitution
embeds its block verbatim in the result. -/
theorem substPlaceholders_infix (blocks : List (List HtmlTok)) :
    ∀ (toks : List HtmlTok) (i : Nat) (b : List HtmlTok),
      HtmlTok.placeholder i ∈ toks → blocks[i]? = some b →
      b <:+: substPlaceholders blocks toks := by
  intro toks
  induction toks with
  | nil =>
    intro i b h
    cases h
  | cons t rest ih =>
    intro i b hmem hget
    have hcons : substPlaceholders blocks (t :: rest) =
        substTok blocks t ++ substPlaceholders blocks rest := rfl
    rcases List.mem_cons.mp hmem with heq | hmem'
    · rw [hcons, ← heq]
      have hsub : substTok blocks (HtmlTok.placeholder i) = b := by
        simp only [substTok, hget]
      rw [hsub]
      exact (List.prefix_append b _).isInfix
    · obtain ⟨s, u, hsu⟩ := ih i b hmem' hget
      rw [hcons]
      refine ⟨substTok blocks t ++ s, u, ?_⟩
      simp only [List.append_assoc] at hsu ⊢
      rw [hsu]

/-- The relative-link rewrite leaves an attribute list alone when
every attribute name is `class` or `style`. -/
theorem attrMap_id (base : String) (attrs : List (String × String))
    (h : attrs.all (fun a => ["class", "style"].contains a.1) = true) :
    attrs.map (fun a =>
      if (a.1 == "src" || a.1 == "href") && strStarts a.2 "./" then
        (a.1, "/" ++ base ++ "/" ++ strDrop a.2 2)
      else a) = attrs := by
  induction attrs with
  | nil => rfl
  | cons a rest ih =>
    rw [List.all_cons, Bool.and_eq_true] at h
    rw [List.map_cons, ih h.2]
    have hcond : (a.1 == "src" || a.1 == "href") = false := by
      have hmem : a.1 = "class" ∨ a.1 = "style" := by
        simpa using h.1
      rcases hmem with h1 | h1 <;> rw [h1] <;> rfl
    rw [hcond]
    simp

/-- The relative-link rewrite is the identity on a token stream whose
open tags carry only `class`/`style` attributes. -/
theorem attrRewrite_id (base : String) :
    ∀ toks, attrsWithin ["class", "style"] toks = true →
      attrRewrite base toks = toks := by
  intro toks h
  induction toks with
  | nil => rfl
  | cons t rest ih =>
    unfold attrsWithin at h ih
    rw [List.all_cons, Bool.and_eq_true] at h
    unfold attrRewrite at ih ⊢
    rw [List.map_cons, ih h.2]
    congr 1
    cases t with
    | text s => rfl
    | placeholder i => rfl
    | tagClose nm => rfl
    | tagOpen nm attrs =>
      simp only
      rw [attrMap_id base attrs (by simpa using h.1)]

/-- The allowed code attributes of any tag are within
`class`/`style`. -/
theorem codeAttrs_sub (nm a : String)
    (h : (codeCfg.attrs nm).contains a = true) :
    (["class", "style"].contains a) = true := by
  unfold codeCfg at h
  simp only at h
  by_cases hd : (nm == "div") = true
  · rw [if_pos hd] at h
    have : a = "class" := by simpa using h
    rw [this]
    rfl
  · rw [if_neg hd] at h
    by_cases hs : (nm == "span") = true
    · rw [if_pos hs] at h
      exact h
    · rw [if_neg hs] at h
      cases h

/-- Everything the code sanitizer emits carries only `class`/`style`
attributes. -/
theorem cleanGo_code_attrs :
    ∀ (fuel : Nat) (toks : List HtmlTok),
      attrsWithin ["class", "style"] (cleanGo codeCfg fuel toks) = true := by
  intro fuel
  induction fuel with
  | zero =>
    intro toks
    rfl
  | succ n ih =>
    intro toks
    cases toks with
    | nil => rfl
    | cons t rest =>
      cases t with
      | text s =>
        simp only [cleanGo]
        unfold attrsWithin at ih ⊢
        rw [List.all_cons]
        simp only [Bool.true_and]
        exact ih rest
      | placeholder i =>
        simp only [cleanGo]
        unfold attrsWithin at ih ⊢
        rw [List.all_cons]
        simp only [Bool.true_and]
        exact ih rest
      | tagClose nm =>
        simp only [cleanGo]
        by_cases hcn : codeCfg.tags.contains nm = true
        · rw [if_pos hcn]
          unfold attrsWithin at ih ⊢
          rw [List.all_cons]
          simp only [Bool.true_and]
          exact ih rest
        · rw [if_neg hcn]
          exact ih rest
      | tagOpen nm attrs =>
        have hcc : codeCfg.cleanContent.contains nm = false := rfl
        simp only [cleanGo, hcc, Bool.false_eq_true, if_false]
        by_cases hcn : codeCfg.tags.contains nm = true
        · rw [if_pos hcn]
          unfold attrsWithin at ih ⊢
          rw [List.all_cons, Bool.and_eq_true]
          refine ⟨?_, ih rest⟩
          simp only
          rw [List.all_eq_true]
          intro a ha
          have ha' : a ∈ attrs ∧ (codeCfg.attrs nm).contains a.1 = true := by
            have := List.mem_filter.mp ha
            exact ⟨this.1, by simpa using this.2⟩
          simpa using codeAttrs_sub nm a.1 ha'.2
        · rw [if_neg hcn]
          exact ih rest

/-- C4 (amended): every fenced code block is sanitized exactly once,
by the code sanitizer, at capture time (second conjunct); provided the
serialized document opens no raw-HTML `script`/`style` element, the
placeholder standing for block `i` survives the document-wide pass and
the pre-sanitized block reappears verbatim — untouched by the
document-wide sanitizer and by the link rewrite — in the final output
(first conjunct).  The spec's concrete document whose code block is
`<img src=x onerror=alert(1)>` renders with no `img` tag, no `onerror`
attribute, and no unescaped `<img` text (last conjuncts). -/
theorem c4_code_block_pipeline :
    (∀ (events : List MdEvent) (base : String) (i : Nat)
        (b : List HtmlTok),
      noCleanContentOpen docCfg (renderParts events).1 = true →
      (renderParts events).2[i]? = some b →
      b <:+: render_markdown events base) ∧
    (∀ (events : List MdEvent), ∀ b ∈ (renderParts events).2,
      ∃ lang code,
        b = cleanCode (highlight_code (langToExt lang) code false)) ∧
    noImgExec (render_markdown evImg "Projects") = true ∧
    strContainsSub (serializeToks (render_markdown evImg "Projects"))
      "<img" = false := by
  have hblocks : ∀ (events : List MdEvent), ∀ b ∈ (renderParts events).2,
      ∃ lang code,
        b = cleanCode (highlight_code (langToExt lang) code false) := by
    intro events b hb
    unfold renderParts at hb
    exact renderFold_blocks events mdInit (by intro x hx; cases hx) b hb
  refine ⟨?_, hblocks, by decide, by decide⟩
  intro events base i b hno hget
  have hi : i < (renderParts events).2.length :=
    (List.getElem?_eq_some.mp hget).1
  have hmem : HtmlTok.placeholder i ∈ (renderParts events).1 :=
    renderParts_placeholder events i hi
  have hmem2 : HtmlTok.placeholder i ∈ cleanDoc (renderParts events).1 := by
    unfold cleanDoc cleanToks
    exact cleanGo_placeholder docCfg _ _ (Nat.lt_succ_self _) hno i hmem
  have hinf : b <:+:
      substPlaceholders (renderParts events).2
        (cleanDoc (renderParts events).1) :=
    substPlaceholders_infix _ _ i b hmem2 hget
  have hbmem : b ∈ (renderParts events).2 := by
    obtain ⟨hlt, he⟩ := List.getElem?_eq_some.mp hget
    exact he ▸ List.getElem_mem hlt
  obtain ⟨lang, code, hbe⟩ := hblocks events b hbmem
  have hattr : attrsWithin ["class", "style"] b = true := by
    rw [hbe]
    unfold cleanCode cleanToks
    exact cleanGo_code_attrs _ _
  obtain ⟨s, u, hsu⟩ := hinf
  unfold render_markdown
  refine ⟨attrRewrite base s, attrRewrite base u, ?_⟩
  have hb' : attrRewrite base b = b := attrRewrite_id base b hattr
  calc attrRewrite base s ++ b ++ attrRewrite base u
      = attrRewrite base s ++ attrRewrite base b ++ attrRewrite base u := by
        rw [hb']
    _ = attrRewrite base (s ++ b ++ u) := by
        unfold attrRewrite
        rw [List.map_append, List.map_append]
    _ = attrRewrite base
          (substPlaceholders (renderParts events).2
            (cleanDoc (renderParts events).1)) := by rw [hsu]

/-- Counterexample for C4: in the document whose raw inline HTML opens
a `script` element before a fenced `rust` code block, the loop does
capture and code-sanitize the block (the side list is nonempty), but
the document-wide sanitizer strips the unclosed script element's
content together with the placeholder standing in it, so the final
output is empty: the placeholder did not survive the document-wide
pass and the code block is silently lost. -/
theorem c4_counterexample :
    (renderParts evBad).2.length = 1 ∧
    noCleanContentOpen docCfg (renderParts evBad).1 = false ∧
    render_markdown evBad "Projects" = [] :=
  ⟨by decide, by decide, by decide⟩

/-- Witness for C4 (amended): in the ordinary document `evPlain` the
code-sanitized highlight of its `rust` block appears verbatim in the
rendered output. -/
theorem c4_witness :
    cleanCode (highlight_code "rs" "fn id()" false) <:+:
      render_markdown evPlain "Projects" :=
  c4_code_block_pipeline.1 evPlain "Projects" 0
    (cleanCode (highlight_code "rs" "fn id()" false)) (by decide) (by rfl)

end Repo
